import Mathlib

/-!
Verification of the shopping-list subsystem of `vaultchef`
(`src/vaultchef/shopping.py` together with the markdown helpers in
`src/vaultchef/domain/markdown.py`).

The Python functions are embedded shallowly: every function is translated
into an executable Lean definition operating on `String` / `List Char`,
with `ℚ` standing for Python's exact `fractions.Fraction` values.
Python built-ins (`str.strip`, `str.splitlines`, `int`, `decimal.Decimal`,
`Fraction.limit_denominator`, `repr`) are modelled explicitly below, at the
granularity the shopping code exercises (single-line ASCII-oriented text;
the comments on each definition state the modelling boundary).
-/

deriving instance DecidableEq for Except

namespace Vaultchef

/- `Rat.add`/`mul`/`sub`/`inv` are `@[irreducible]` in Batteries; making them
semireducible again lets `decide` evaluate the embedded pipeline on concrete
inputs.  This changes nothing about what is proved. -/
attribute [local semireducible] Rat.add Rat.mul Rat.sub Rat.inv

/-! ## Python string primitives -/

/-- Python `str.strip()` whitespace class (ASCII part of Python's
whitespace set; the shopping code only ever feeds it recipe text lines). -/
def is_space_char (c : Char) : Bool :=
  c = ' ' || c = '\t' || c = '\n' || c = '\r' || c = '\x0b' || c = '\x0c'

/-- Characters counted by Python's regex `\w` (ASCII fragment), used for the
`\b` word-boundary assertion in `QUANTITY_RE`. -/
def is_word_char (c : Char) : Bool :=
  c.isAlpha || c.isDigit || c = '_'

/-- Strip characters satisfying `p` from both ends of a char list
(Python `str.strip(chars)` / `str.strip()`). -/
def strip_by (p : Char → Bool) (cs : List Char) : List Char :=
  ((cs.dropWhile p).reverse.dropWhile p).reverse

/-- Python `str.strip()` on a string. -/
def py_strip (s : String) : String :=
  String.mk (strip_by is_space_char s.data)

/-- The punctuation class of `str.strip(" ,.;:")` in `_normalize_name` /
`_display_name`. -/
def is_name_punct (c : Char) : Bool :=
  c = ' ' || c = ',' || c = '.' || c = ';' || c = ':'

/-- Python `str.lower()` (ASCII case mapping; recipe text in this code base
is ASCII). -/
def py_lower (s : String) : String :=
  String.mk (s.data.map Char.toLower)

/-- Python `str.rstrip(".,")` used by `_normalize_unit`. -/
def rstrip_dots (cs : List Char) : List Char :=
  (cs.reverse.dropWhile (fun c => c = '.' || c = ',')).reverse

/-- Core of Python `str.splitlines()`: split at `\n`, `\r\n`, `\r`
(the universal-newline terminators that can occur in recipe text). -/
def py_splitlines_go : List Char → List Char → List (List Char)
  | [], acc => [acc.reverse]
  | [c], acc =>
    if c = '\r' ∨ c = '\n' then [acc.reverse] else [(c :: acc).reverse]
  | c1 :: c2 :: rest, acc =>
    if c1 = '\r' then
      if c2 = '\n' then
        acc.reverse :: (if rest.isEmpty then [] else py_splitlines_go rest [])
      else acc.reverse :: py_splitlines_go (c2 :: rest) []
    else if c1 = '\n' then
      acc.reverse :: py_splitlines_go (c2 :: rest) []
    else py_splitlines_go (c2 :: rest) (c1 :: acc)

/-- Python `str.splitlines()`. -/
def py_splitlines (s : String) : List String :=
  if s.data.isEmpty then [] else (py_splitlines_go s.data []).map String.mk

/-- Python `"\n".join(chunks)` at the character level. -/
def join_chars : List (List Char) → List Char
  | [] => []
  | [l] => l
  | l :: ls => l ++ '\n' :: join_chars ls

/-- Python `"\n".join(lines)`. -/
def join_lines (lines : List String) : String :=
  String.mk (join_chars (lines.map String.data))

/-- Python `rest.partition(" ")`, returning the text before the first space
and the text after it (`(rest, "", "")` shape when there is no space). -/
def partition_space (s : String) : String × String :=
  match s.data.span (fun c => c != ' ') with
  | (before, []) => (String.mk before, "")
  | (before, _ :: tail) => (String.mk before, String.mk tail)

/-- Escaping of one character inside Python `repr` of a string
(printable-ASCII model: backslash, the quote character and the common
control characters; other characters are kept verbatim). -/
def py_repr_escape (qc : Char) (c : Char) : List Char :=
  if c = '\\' || c = qc then ['\\', c]
  else if c = '\n' then ['\\', 'n']
  else if c = '\r' then ['\\', 'r']
  else if c = '\t' then ['\\', 't']
  else [c]

/-- Python `repr` of a string: single quotes, switching to double quotes
when the text contains a single quote but no double quote. -/
def py_repr (s : String) : String :=
  let qc : Char := if s.data.contains '\'' && !s.data.contains '"' then '"' else '\''
  String.mk (qc :: (s.data.flatMap (py_repr_escape qc)) ++ [qc])

/-- Python `int(text)` on a string: optional surrounding whitespace,
optional sign, at least one digit (underscore digit grouping is not
modelled; the shopping code only reaches `int` with regex-shaped digit
strings, plus arbitrary garbage which both Python and this model reject). -/
def digits_val (ds : List Char) : ℕ :=
  ds.foldl (fun a c => a * 10 + (c.toNat - 48)) 0

def py_int_digits (ds : List Char) : Option ℕ :=
  if ds.isEmpty || !ds.all Char.isDigit then none else some (digits_val ds)

def py_int (s : String) : Option ℤ :=
  let t := strip_by is_space_char s.data
  if t.head? = some '+' then (py_int_digits t.tail).map (fun n => (n : ℤ))
  else if t.head? = some '-' then (py_int_digits t.tail).map (fun n => -(n : ℤ))
  else (py_int_digits t).map (fun n => (n : ℤ))

/-- Python `decimal.Decimal(text)` restricted to finite numeric literals:
optional whitespace and sign, a digit string with an optional fractional
part, and an optional decimal exponent.  `Decimal` also accepts
`Infinity`/`NaN` spellings, which this model rejects; those can never
reach `_parse_quantity`'s decimal branch through `QUANTITY_RE`, and on a
direct call they would escape as an uncaught `OverflowError` rather than
produce a value. -/
def py_decimal (s : String) : Option ℚ :=
  let cs := strip_by is_space_char s.data
  let (sign, cs1) : ℚ × List Char :=
    if cs.head? = some '+' then (1, cs.tail)
    else if cs.head? = some '-' then ((-1 : ℚ), cs.tail)
    else (1, cs)
  let (ip, r1) := cs1.span Char.isDigit
  let dotted : Bool := decide (r1.head? = some '.')
  let (fp, r2) := if dotted then r1.tail.span Char.isDigit else ([], r1)
  if ip.isEmpty && (!dotted || fp.isEmpty) then none
  else
    let coeff : ℚ := (digits_val (ip ++ fp) : ℚ)
    let scaled : ℚ := sign * coeff / ((10 : ℚ) ^ fp.length)
    if r2 = [] then some scaled
    else if r2.head? = some 'e' ∨ r2.head? = some 'E' then
      (py_int (String.mk r2.tail)).map (fun e => scaled * (10 : ℚ) ^ e)
    else none

/-! ## `Fraction.limit_denominator` -/

/-- The continued-fraction walk inside Python's
`Fraction.limit_denominator`: Stern-Brocot convergents `p0/q0`, `p1/q1` of
`n/d`, stopping before the denominator would exceed `max_denominator`.
The Python `while True` loop strictly decreases `d`; `fuel` bounds the
iteration count and is instantiated with `d + 1`, which always suffices. -/
def ld_loop : ℕ → ℤ → ℤ → ℤ → ℤ → ℤ → ℤ → ℤ → ℤ × ℤ × ℤ × ℤ
  | 0, _, p0, q0, p1, q1, _, _ => (p0, q0, p1, q1)
  | fuel + 1, maxd, p0, q0, p1, q1, n, d =>
    if d ≤ 0 then (p0, q0, p1, q1)
    else
      let a := Int.ediv n d
      let q2 := q0 + a * q1
      if q2 > maxd then (p0, q0, p1, q1)
      else ld_loop fuel maxd p1 q1 (p0 + a * p1) q2 d (Int.emod n d)

/-- Python `Fraction.limit_denominator(maxd)`: the value closest to `q`
among fractions with denominator at most `maxd` (ties resolved toward the
second candidate, exactly as in CPython).  For a positive divisor Python's
floor division/modulo agree with `Int.ediv`/`Int.emod` used here. -/
def limit_denominator (q : ℚ) (maxd : ℕ) : ℚ :=
  if q.den ≤ maxd then q
  else
    let r := ld_loop (q.den + 1) (maxd : ℤ) 0 1 1 0 q.num (q.den : ℤ)
    let p0 := r.1
    let q0 := r.2.1
    let p1 := r.2.2.1
    let q1 := r.2.2.2
    let k := Int.ediv ((maxd : ℤ) - q0) q1
    let bound1 : ℚ := Rat.divInt (p0 + k * p1) (q0 + k * q1)
    let bound2 : ℚ := Rat.divInt p1 q1
    if |bound2 - q| ≤ |bound1 - q| then bound2 else bound1

/-! ## The regexes of `shopping.py` -/

/-- `\b` after a digit: the next character must not be a word character. -/
def at_boundary : List Char → Bool
  | [] => true
  | c :: _ => !is_word_char c

/-- First alternative of `QUANTITY_RE`: `\d+\s+\d+/\d+` followed by `\b`.
All character classes involved are pairwise disjoint, so the greedy
quantifiers reduce to maximal munch and no backtracking can help a failed
boundary; the same holds in the other alternatives. -/
def qty_alt_mixed (cs : List Char) : Option (List Char × List Char) :=
  let (d1, r1) := cs.span Char.isDigit
  if d1.isEmpty then none
  else
    let (w, r2) := r1.span is_space_char
    if w.isEmpty then none
    else
      let (d2, r3) := r2.span Char.isDigit
      if d2.isEmpty then none
      else
        match r3 with
        | '/' :: r4 =>
          let (d3, r5) := r4.span Char.isDigit
          if d3.isEmpty then none
          else if at_boundary r5 then some (d1 ++ w ++ d2 ++ '/' :: d3, r5) else none
        | _ => none

/-- Second alternative of `QUANTITY_RE`: `\d+/\d+` followed by `\b`. -/
def qty_alt_frac (cs : List Char) : Option (List Char × List Char) :=
  let (d1, r1) := cs.span Char.isDigit
  if d1.isEmpty then none
  else
    match r1 with
    | '/' :: r2 =>
      let (d2, r3) := r2.span Char.isDigit
      if d2.isEmpty then none
      else if at_boundary r3 then some (d1 ++ '/' :: d2, r3) else none
    | _ => none

/-- Third alternative of `QUANTITY_RE`: `\d+(?:\.\d+)?` followed by `\b`.
When the optional decimal group matches but the boundary after it fails,
the regex engine backtracks to the bare integer (whose boundary then sits
before the `.` and succeeds); e.g. on `"1.5abc"` the group yields
`qty = "1"`. -/
def qty_alt_dec (cs : List Char) : Option (List Char × List Char) :=
  let (d1, r1) := cs.span Char.isDigit
  if d1.isEmpty then none
  else
    match r1 with
    | '.' :: r2 =>
      let (d2, r3) := r2.span Char.isDigit
      if !d2.isEmpty && at_boundary r3 then some (d1 ++ '.' :: d2, r3)
      else if at_boundary r1 then some (d1, r1)
      else none
    | _ => if at_boundary r1 then some (d1, r1) else none

/-- `QUANTITY_RE.match(text)`:
`^(?P<qty>\d+\s+\d+/\d+|\d+/\d+|\d+(?:\.\d+)?)\b\s*(?P<rest>.*)$`.
Returns `(qty group, rest group)`.  `text` is always a single line here
(the code feeds it bullet contents and emitted shopping lines), so `.*`
reaches the end of the string. -/
def quantity_re_match (s : String) : Option (String × String) :=
  match qty_alt_mixed s.data <|> qty_alt_frac s.data <|> qty_alt_dec s.data with
  | none => none
  | some (q, r) => some (String.mk q, String.mk (r.dropWhile is_space_char))

/-- `BULLET_RE.match(line)`: `^\s*[-*+]\s+(.*)$`, returning group 1. -/
def bullet_re_match (line : String) : Option String :=
  match line.data.dropWhile is_space_char with
  | [] => none
  | c :: r2 =>
    if c = '-' || c = '*' || c = '+' then
      let (w, r3) := r2.span is_space_char
      if w.isEmpty then none else some (String.mk r3)
    else none

/-- One attempted match of `PARENS_RE` = `\s*\([^)]*\)\s*` at the head of
`cs`; on success returns the remainder after the match.  `[^)]*` is a
maximal run of non-`)` characters, and both `\s*` are maximal runs. -/
def parens_try (cs : List Char) : Option (List Char) :=
  match cs.dropWhile is_space_char with
  | '(' :: r2 =>
    match (r2.span (fun c => c != ')')).2 with
    | ')' :: r4 => some (r4.dropWhile is_space_char)
    | _ => none
  | _ => none

/-- `PARENS_RE.sub(" ", ·)`: scan left to right, replacing each
(non-overlapping, leftmost) match by a single space.  Every match consumes
at least two characters, so `cs.length` bounds the number of steps. -/
def parens_sub_fuel : ℕ → List Char → List Char
  | 0, cs => cs
  | fuel + 1, cs =>
    match parens_try cs with
    | some rest => ' ' :: parens_sub_fuel fuel rest
    | none =>
      match cs with
      | [] => []
      | c :: rest => c :: parens_sub_fuel fuel rest

def parens_sub (cs : List Char) : List Char :=
  parens_sub_fuel cs.length cs

/-- `SPACE_RE.sub(" ", ·)`: collapse each maximal whitespace run to a
single space. -/
def spaces_sub : List Char → List Char
  | [] => []
  | [c] => if is_space_char c then [' '] else [c]
  | c1 :: c2 :: rest =>
    if is_space_char c1 && is_space_char c2 then spaces_sub (c2 :: rest)
    else (if is_space_char c1 then ' ' else c1) :: spaces_sub (c2 :: rest)

/-! ## `_parse_quantity`, `_normalize_unit`, `_normalize_name` -/

/-- Python `text.split(" ", 1)` on a text known to contain a space. -/
def split_first_space (cs : List Char) : List Char × List Char :=
  match cs.span (fun c => c != ' ') with
  | (w, []) => (w, [])
  | (w, _ :: rest) => (w, rest)

/-- Python `text.split("/", 1)` on a text known to contain a slash. -/
def split_first_slash (cs : List Char) : List Char × List Char :=
  match cs.span (fun c => c != '/') with
  | (n, []) => (n, [])
  | (n, _ :: rest) => (n, rest)

/-- `_parse_quantity` (shopping.py:185-209).  The recursion of the mixed
`"<int> <num>/<den>"` branch strictly shortens the text, so `fuel`
instantiated with the text length always suffices.
* `" "` and `"/"` present: split at the first space, recurse on both parts,
  add (`None` if either part fails);
* `"/"` present: `Fraction(int(num), int(den))`, where `ValueError` and
  `ZeroDivisionError` degrade to `None`;
* otherwise `Fraction(Decimal(text)).limit_denominator(16)`, with
  `InvalidOperation` degrading to `None`. -/
def pq_go : ℕ → List Char → Option ℚ
  | 0, _ => none
  | fuel + 1, cs =>
    if cs = [] then none
    else if cs.contains ' ' && cs.contains '/' then
      let (w, rest) := split_first_space cs
      match pq_go fuel (strip_by is_space_char w),
            pq_go fuel (strip_by is_space_char rest) with
      | some a, some b => some (a + b)
      | _, _ => none
    else if cs.contains '/' then
      let (n, d) := split_first_slash cs
      match py_int (String.mk n), py_int (String.mk d) with
      | some nv, some dv => if dv = 0 then none else some (Rat.divInt nv dv)
      | _, _ => none
    else
      match py_decimal (String.mk cs) with
      | none => none
      | some q => some (limit_denominator q 16)

def parse_quantity (s : String) : Option ℚ :=
  let cs := strip_by is_space_char s.data
  pq_go (cs.length + 1) cs

/-- The module-level `UNIT_ALIASES` table (shopping.py:17-57). -/
def UNIT_ALIASES : List (String × String) :=
  [("tsp", "tsp"), ("teaspoon", "tsp"), ("teaspoons", "tsp"),
   ("tbsp", "tbsp"), ("tablespoon", "tbsp"), ("tablespoons", "tbsp"),
   ("g", "g"), ("gram", "g"), ("grams", "g"),
   ("kg", "kg"), ("kilogram", "kg"), ("kilograms", "kg"),
   ("ml", "ml"), ("milliliter", "ml"), ("milliliters", "ml"),
   ("millilitre", "ml"), ("millilitres", "ml"),
   ("l", "l"), ("liter", "l"), ("liters", "l"), ("litre", "l"), ("litres", "l"),
   ("cup", "cup"), ("cups", "cup"),
   ("oz", "oz"), ("ounce", "oz"), ("ounces", "oz"),
   ("lb", "lb"), ("lbs", "lb"), ("pound", "lb"), ("pounds", "lb"),
   ("clove", "clove"), ("cloves", "clove"),
   ("can", "can"), ("cans", "can"), ("tin", "can"), ("tins", "can"),
   ("packet", "packet"), ("packets", "packet")]

def aliases_get (k : String) : Option String :=
  (UNIT_ALIASES.find? (fun p => p.1 = k)).map Prod.snd

/-- `_normalize_unit` (shopping.py:212-214). -/
def normalize_unit (token : String) : Option String :=
  aliases_get (String.mk (rstrip_dots (py_lower (py_strip token)).data))

/-- `_normalize_name` (shopping.py:217-221). -/
def normalize_name (text : String) : String :=
  let lowered := (py_lower (py_strip text)).data
  let lowered := parens_sub lowered
  let lowered := strip_by is_name_punct lowered
  String.mk (strip_by is_space_char (spaces_sub lowered))

/-- `_display_name` (shopping.py:224-226). -/
def display_name (text : String) : String :=
  let clean := strip_by is_name_punct (parens_sub text.data)
  String.mk (strip_by is_space_char (spaces_sub clean))

/-! ## Data model and error type -/

/-- `ShoppingParseError(msg)` from `errors.py` (a plain message-carrying
exception). -/
structure ShoppingParseError where
  msg : String
deriving DecidableEq, Repr

/-- The `ShoppingItem` dataclass (shopping.py:60-67), with `ℚ` for
`Fraction` and `Option` for the `| None` slots. -/
structure ShoppingItem where
  quantity : Option ℚ
  unit : Option String
  name : String
  key : String
  source_path : String
  line_number : ℕ
deriving DecidableEq, Repr

/-- `_parse_ingredient_line` (shopping.py:98-132).  Python raising
`ShoppingParseError` is modelled with `Except`; the function otherwise
always returns an item (its `| None` return annotation is never realised).
Python truthiness of the `candidate` string is modelled faithfully: a unit
is attached only when the canonical unit is a nonempty string (all alias
values are) and the remaining tail is nonempty after stripping. -/
def parse_ingredient_line (line source_path : String) (line_number : ℕ) :
    Except ShoppingParseError ShoppingItem :=
  let text := py_strip line
  if text = "" then
    .error ⟨source_path ++ ": ingredients line " ++ toString line_number ++ " is empty"⟩
  else
    let parsed : Option ℚ × Option String × String :=
      match quantity_re_match text with
      | none => (none, none, text)
      | some (qs, rest0) =>
        let qty := parse_quantity qs
        let rest := py_strip rest0
        if rest = "" then (qty, none, text)
        else
          let (token, tail) := partition_space rest
          match normalize_unit token with
          | some candidate =>
            if candidate ≠ "" ∧ py_strip tail ≠ "" then (qty, some candidate, py_strip tail)
            else (qty, none, rest)
          | none => (qty, none, rest)
    let name_key := normalize_name parsed.2.2
    if name_key = "" then
      .error ⟨source_path ++ ": ingredients line " ++ toString line_number ++
        " has no parseable ingredient name: " ++ py_repr text⟩
    else
      .ok ⟨parsed.1, parsed.2.1, display_name parsed.2.2, name_key, source_path, line_number⟩

/-! ## `domain/markdown.py`: frontmatter and section extraction -/

/-- The closing separator `\r?\n---\r?\n` of `FRONTMATTER_RE`, attempted at
the head of `cs`; returns the remainder after the separator. -/
def fm_close (cs : List Char) : Option (List Char) :=
  let tail3 : List Char → Option (List Char) := fun r =>
    match r with
    | '-' :: '-' :: '-' :: '\r' :: '\n' :: r2 => some r2
    | '-' :: '-' :: '-' :: '\n' :: r2 => some r2
    | _ => none
  match cs with
  | '\r' :: '\n' :: r => tail3 r
  | '\n' :: r => tail3 r
  | _ => none

/-- The lazy `(.*?)` scan: find the earliest position at which the closing
separator matches (DOTALL lets the content span lines). -/
def fm_scan : List Char → Option (List Char)
  | [] => none
  | c :: rest =>
    match fm_close (c :: rest) with
    | some r => some r
    | none => fm_scan rest

/-- `split_frontmatter` (markdown.py:19-32) restricted to the body, which
is all the shopping pipeline uses (`doc.body`); the parsed YAML mapping is
irrelevant here.  `FRONTMATTER_RE` is
`^﻿?\s*---\r?\n(.*?)\r?\n---\r?\n` (DOTALL); when it does not match,
the body is the whole document. -/
def split_frontmatter_body (md : String) : String :=
  let cs1 : List Char :=
    if md.data.head? = some '\uFEFF' then md.data.tail else md.data
  match cs1.dropWhile is_space_char with
  | '-' :: '-' :: '-' :: rest =>
    let afterOpen : Option (List Char) :=
      match rest with
      | '\r' :: '\n' :: r => some r
      | '\n' :: r => some r
      | _ => none
    match afterOpen with
    | none => md
    | some r =>
      match fm_close r with      -- empty (.*?) first,
      | some body => String.mk body
      | none =>
        match fm_scan r with     -- then scan forward
        | some body => String.mk body
        | none => md
  | _ => md

/-- Replace-or-append update of the ordered section map, mirroring
`sections[current] = []` resetting a repeated heading. -/
def sections_set (m : List (String × List String)) (k : String) :
    List (String × List String) :=
  if (m.find? (fun p => p.1 = k)).isSome then
    m.map (fun p => if p.1 = k then (p.1, ([] : List String)) else p)
  else m ++ [(k, [])]

/-- `sections[current].append(line)`. -/
def sections_append (m : List (String × List String)) (k line : String) :
    List (String × List String) :=
  m.map (fun p => if p.1 = k then (p.1, p.2 ++ [line]) else p)

/-- Python `line.startswith(prefix)` as a character-list test. -/
def py_startswith (s p : String) : Bool :=
  p.data.isPrefixOf s.data

/-- The line loop of `extract_sections` (markdown.py:40-46). -/
def extract_sections_go (pre : String) :
    List String → Option String → List (String × List String) →
    List (String × List String)
  | [], _, m => m
  | line :: rest, current, m =>
    if py_startswith line pre then
      let name := py_strip (line.drop pre.length)
      extract_sections_go pre rest (some name) (sections_set m name)
    else
      match current with
      | some c => extract_sections_go pre rest (some c) (sections_append m c line)
      | none => extract_sections_go pre rest none m

/-- `extract_sections` (markdown.py:35-48); the shopping code uses the
default `heading_level = 2`. -/
def extract_sections (md : String) (heading_level : ℕ) : List (String × String) :=
  let pre := String.mk (List.replicate heading_level '#') ++ " "
  (extract_sections_go pre (py_splitlines md) none []).map
    (fun p => (p.1, py_strip (join_lines p.2)))

/-- `sections.get(name, default)`. -/
def sections_get (m : List (String × String)) (k dflt : String) : String :=
  match m.find? (fun p => p.1 = k) with
  | some p => p.2
  | none => dflt

/-! ## `_extract_ingredient_items` -/

/-- The `MalformedIngredientLine` message (shopping.py:88-90). -/
def malformed_msg (source_path : String) (idx : ℕ) (line : String) : String :=
  source_path ++ ": ingredients line " ++ toString idx ++ " is not a bullet: " ++
    py_repr (py_strip line)

/-- The `for idx, line in enumerate(..., start=1)` loop of
`_extract_ingredient_items` (shopping.py:84-94): blank non-bullet lines are
skipped, non-blank non-bullet lines raise, bullet lines are parsed (the
`if parsed:` guard is always true, see `parse_ingredient_line`). -/
def extract_loop (source_path : String) :
    ℕ → List String → Except ShoppingParseError (List ShoppingItem)
  | _, [] => .ok []
  | idx, line :: rest =>
    match bullet_re_match line with
    | none =>
      if py_strip line ≠ "" then .error ⟨malformed_msg source_path idx line⟩
      else extract_loop source_path (idx + 1) rest
    | some content => do
      let item ← parse_ingredient_line content source_path idx
      let others ← extract_loop source_path (idx + 1) rest
      pure (item :: others)

/-- `_extract_ingredient_items` (shopping.py:79-95). -/
def extract_ingredient_items (recipe_md source_path : String) :
    Except ShoppingParseError (List ShoppingItem) :=
  let body := split_frontmatter_body recipe_md
  let sections := extract_sections body 2
  let ingredients := sections_get sections "Ingredients" ""
  extract_loop source_path 1 (py_splitlines ingredients)

/-! ## Aggregation, formatting, consistency check -/

/-- The dict key `(item.key, item.unit or "", item.quantity is None)`
(shopping.py:138).  `or ""` maps both `None` and `""` to `""`. -/
abbrev Bucket := String × String × Bool

def bucket_of (it : ShoppingItem) : Bucket :=
  (it.key, it.unit.getD "", it.quantity.isNone)

/-- First-match association lookup (Python dict lookup; keys are unique by
construction). -/
def assoc_find (b : Bucket) : List (Bucket × ShoppingItem) → Option ShoppingItem
  | [] => none
  | p :: rest => if p.1 = b then some p.2 else assoc_find b rest

/-- The merge of an incoming item into the existing bucket representative
(shopping.py:151-153): quantities add only when both are present. -/
def merge_qty (existing incoming : ShoppingItem) : ShoppingItem :=
  match existing.quantity, incoming.quantity with
  | some qe, some qi => { existing with quantity := some (qe + qi) }
  | _, _ => existing

/-- In-place update of the (unique) entry for bucket `b`. -/
def assoc_update (b : Bucket) (incoming : ShoppingItem) :
    List (Bucket × ShoppingItem) → List (Bucket × ShoppingItem)
  | [] => []
  | p :: rest =>
    if p.1 = b then (p.1, merge_qty p.2 incoming) :: rest
    else p :: assoc_update b incoming rest

/-- One iteration of the merge loop (shopping.py:137-153).  A new bucket
appends a copy of the item (value-identical to the item itself). -/
def insert_item (m : List (Bucket × ShoppingItem)) (it : ShoppingItem) :
    List (Bucket × ShoppingItem) :=
  let b := bucket_of it
  match assoc_find b m with
  | none => m ++ [(b, it)]
  | some _ => assoc_update b it m

/-- The insertion-ordered `merged` dict after the whole loop. -/
def build_merged (items : List ShoppingItem) : List (Bucket × ShoppingItem) :=
  items.foldl insert_item []

/-- The sort key `(item.key, item.unit or "", item.name.lower())`
(shopping.py:158). -/
def sort_key (it : ShoppingItem) : String × String × String :=
  (it.key, it.unit.getD "", py_lower it.name)

/-- Code-point lexicographic `<` on char lists: Python's `<` on `str`. -/
def chars_lt : List Char → List Char → Bool
  | [], [] => false
  | [], _ :: _ => true
  | _ :: _, [] => false
  | a :: as_, b :: bs => if a = b then chars_lt as_ bs else decide (a < b)

/-- Python `<` on `(str, str, str)` sort-key tuples: lexicographic. -/
def key_lt (a b : String × String × String) : Bool :=
  chars_lt a.1.data b.1.data ||
    (a.1 = b.1 &&
      (chars_lt a.2.1.data b.2.1.data ||
        (a.2.1 = b.2.1 && chars_lt a.2.2.data b.2.2.data)))

/-- Stable insertion: `x` goes before the first element it is strictly
less-than-or-tied-with, matching the stability of Python's `sorted`. -/
def sort_insert (x : ShoppingItem) : List ShoppingItem → List ShoppingItem
  | [] => [x]
  | y :: ys =>
    if key_lt (sort_key y) (sort_key x) then y :: sort_insert x ys
    else x :: y :: ys

/-- `sorted(merged.values(), key=...)` — a stable sort by `sort_key`. -/
def sort_items : List ShoppingItem → List ShoppingItem
  | [] => []
  | x :: xs => sort_insert x (sort_items xs)

/-- `_format_quantity` (shopping.py:174-182).  Python `//` is floor
division; the denominator is positive, so `Int.fdiv` coincides with it. -/
def format_quantity (q : ℚ) : String :=
  if q.den = 1 then toString q.num
  else
    let whole := Int.fdiv q.num (q.den : ℤ)
    let rem := q - (whole : ℚ)
    if whole = 0 then toString rem.num ++ "/" ++ toString rem.den
    else toString whole ++ " " ++ toString rem.num ++ "/" ++ toString rem.den

/-- `_format_item` (shopping.py:165-171); `if item.unit:` tests Python
truthiness, so an empty-string unit renders without the unit. -/
def format_item (it : ShoppingItem) : String :=
  match it.quantity with
  | none => it.name
  | some q =>
    match it.unit with
    | some u =>
      if u ≠ "" then format_quantity q ++ " " ++ u ++ " " ++ it.name
      else format_quantity q ++ " " ++ it.name
    | none => format_quantity q ++ " " ++ it.name

/-- `_aggregate_items` (shopping.py:135-162). -/
def aggregate_items (items : List ShoppingItem) : List String :=
  (sort_items ((build_merged items).map Prod.snd)).map format_item

/-- `_shopping_line_key` (shopping.py:238-252): re-derive the aggregation
key from an emitted line. -/
def shopping_line_key (line : String) : String :=
  let text := py_strip line
  if text = "" then ""
  else
    match quantity_re_match text with
    | some (_, rest0) =>
      let rest := py_strip rest0
      if rest ≠ "" then
        let (token, tail) := partition_space rest
        match normalize_unit token with
        | some candidate =>
          if candidate ≠ "" ∧ py_strip tail ≠ "" then normalize_name (py_strip tail)
          else normalize_name rest
        | none => normalize_name rest
      else normalize_name text
    | none => normalize_name text

/-- `_assert_item_representation` (shopping.py:229-235): raise at the
first input item whose key is missing from the re-derived output keys. -/
def assert_item_representation (items : List ShoppingItem) (lines : List String) :
    Except ShoppingParseError Unit :=
  let output_keys := lines.map shopping_line_key
  match items.find? (fun it => !(output_keys.any (fun k => k = it.key))) with
  | some it =>
    .error ⟨it.source_path ++ ": ingredients line " ++ toString it.line_number ++
      " not represented in shopping list: " ++ py_repr it.name⟩
  | none => .ok ()

/-- The per-document collection loop of `build_shopping_list`
(shopping.py:71-73). -/
def collect_items : List (String × String) → Except ShoppingParseError (List ShoppingItem)
  | [] => .ok []
  | (source_path, recipe_md) :: rest => do
    let here ← extract_ingredient_items recipe_md source_path
    let there ← collect_items rest
    pure (here ++ there)

/-- `build_shopping_list` (shopping.py:70-76). -/
def build_shopping_list (recipe_documents : List (String × String)) :
    Except ShoppingParseError (List String) := do
  let items ← collect_items recipe_documents
  let lines := aggregate_items items
  let _ ← assert_item_representation items lines
  pure lines

/-! ## Specification views of the aggregation loop -/

/-- The items of `L` that fall into bucket `b`. -/
def bitems (L : List ShoppingItem) (b : Bucket) : List ShoppingItem :=
  L.filter (fun it => decide (bucket_of it = b))

/-- Sum of the present quantities of a list of items. -/
def qsum (L : List ShoppingItem) : ℚ :=
  (L.map (fun it => it.quantity.getD 0)).sum

/-- Absorb the quantities of `xs` into the representative `e`
(no-op when `e` is quantity-less, as in the merge loop). -/
def merge_spec (e : ShoppingItem) (xs : List ShoppingItem) : ShoppingItem :=
  match e.quantity with
  | none => e
  | some q => { e with quantity := some (q + qsum xs) }

/-- Declarative value of one bucket: the first item fixes the
representative, later quantities are added. -/
def agg_spec : List ShoppingItem → Option ShoppingItem
  | [] => none
  | x :: xs => some (merge_spec x xs)

/-- Stored representatives have the quantity-presence recorded in their
bucket key — the invariant of the `merged` dict. -/
def WFq (m : List (Bucket × ShoppingItem)) : Prop :=
  ∀ b it, assoc_find b m = some it → it.quantity.isNone = b.2.2

theorem bucket_of_quantity_isNone (x : ShoppingItem) (b : Bucket)
    (h : bucket_of x = b) : x.quantity.isNone = b.2.2 := by
  subst h; rfl

theorem merge_spec_nil (e : ShoppingItem) : merge_spec e [] = e := by
  rcases he : e.quantity with _ | q <;> simp [merge_spec, he, qsum]
  cases e; simp_all

theorem qsum_cons (x : ShoppingItem) (xs : List ShoppingItem) :
    qsum (x :: xs) = x.quantity.getD 0 + qsum xs := by
  simp [qsum]

theorem qsum_append (xs ys : List ShoppingItem) :
    qsum (xs ++ ys) = qsum xs + qsum ys := by
  simp [qsum]

theorem bitems_cons (x : ShoppingItem) (L : List ShoppingItem) (b : Bucket) :
    bitems (x :: L) b =
      if bucket_of x = b then x :: bitems L b else bitems L b := by
  by_cases h : bucket_of x = b <;> simp [bitems, List.filter_cons, h]

theorem bitems_append (L M : List ShoppingItem) (b : Bucket) :
    bitems (L ++ M) b = bitems L b ++ bitems M b := by
  simp [bitems, List.filter_append]

theorem bitems_mem (L : List ShoppingItem) (b : Bucket) (x : ShoppingItem)
    (hx : x ∈ bitems L b) : bucket_of x = b := by
  have := List.of_mem_filter hx
  simpa using this

theorem assoc_find_append (b : Bucket) (m l : List (Bucket × ShoppingItem)) :
    assoc_find b (m ++ l) =
      match assoc_find b m with
      | some v => some v
      | none => assoc_find b l := by
  induction m with
  | nil => simp [assoc_find]
  | cons p rest ih =>
    by_cases h : p.1 = b <;> simp [assoc_find, h, ih]

theorem assoc_find_update_self (b : Bucket) (x : ShoppingItem)
    (m : List (Bucket × ShoppingItem)) (e : ShoppingItem)
    (h : assoc_find b m = some e) :
    assoc_find b (assoc_update b x m) = some (merge_qty e x) := by
  induction m with
  | nil => simp [assoc_find] at h
  | cons p rest ih =>
    by_cases hp : p.1 = b
    · simp [assoc_find, hp] at h
      subst h
      simp [assoc_update, assoc_find, hp]
    · simp [assoc_find, hp] at h
      simp [assoc_update, assoc_find, hp, ih h]

theorem assoc_find_update_other (b b' : Bucket) (x : ShoppingItem)
    (m : List (Bucket × ShoppingItem)) (hne : b' ≠ b) :
    assoc_find b' (assoc_update b x m) = assoc_find b' m := by
  induction m with
  | nil => simp [assoc_update]
  | cons p rest ih =>
    by_cases hp : p.1 = b
    · have hp' : p.1 ≠ b' := by rw [hp]; exact fun h => hne h.symm
      simp [assoc_update, assoc_find, hp, hp', Ne.symm hne]
    · by_cases hb' : p.1 = b' <;> simp [assoc_update, assoc_find, hp, hb', ih, hne]

theorem insert_item_find_eq (m : List (Bucket × ShoppingItem)) (x : ShoppingItem) :
    assoc_find (bucket_of x) (insert_item m x) =
      some (match assoc_find (bucket_of x) m with
            | none => x
            | some e => merge_qty e x) := by
  rcases h : assoc_find (bucket_of x) m with _ | e
  · simp only [insert_item, h]
    rw [assoc_find_append]
    simp [h, assoc_find]
  · simp only [insert_item, h]
    exact assoc_find_update_self _ _ _ _ h

theorem insert_item_find_ne (m : List (Bucket × ShoppingItem)) (x : ShoppingItem)
    (b : Bucket) (hne : b ≠ bucket_of x) :
    assoc_find b (insert_item m x) = assoc_find b m := by
  rcases h : assoc_find (bucket_of x) m with _ | e
  · simp only [insert_item, h]
    rw [assoc_find_append]
    rcases hb : assoc_find b m with _ | v <;> simp [assoc_find, hne, Ne.symm hne]
  · simp only [insert_item, h]
    exact assoc_find_update_other _ _ _ _ hne

theorem merge_qty_isNone (e x : ShoppingItem) :
    (merge_qty e x).quantity.isNone = e.quantity.isNone := by
  rcases he : e.quantity with _ | qe <;> rcases hx : x.quantity with _ | qx <;>
    simp [merge_qty, he, hx]

theorem WFq_nil : WFq [] := by
  intro b it h
  simp [assoc_find] at h

theorem WFq_insert (m : List (Bucket × ShoppingItem)) (x : ShoppingItem)
    (hm : WFq m) : WFq (insert_item m x) := by
  intro b it h
  by_cases hb : b = bucket_of x
  · subst hb
    rw [insert_item_find_eq] at h
    rcases hfind : assoc_find (bucket_of x) m with _ | e
    · rw [hfind] at h
      simp only [Option.some.injEq] at h
      subst h
      rfl
    · rw [hfind] at h
      simp only [Option.some.injEq] at h
      subst h
      rw [merge_qty_isNone]
      exact hm _ _ hfind
  · rw [insert_item_find_ne _ _ _ hb] at h
    exact hm _ _ h

/-- Folding one incoming item into the representative first and then the
rest of the bucket is the same as folding in the whole bucket, provided
quantity-presence agrees (which the bucket key enforces). -/
theorem merge_spec_step (e x : ShoppingItem) (xs : List ShoppingItem)
    (hpres : e.quantity.isNone = x.quantity.isNone) :
    merge_spec (merge_qty e x) xs = merge_spec e (x :: xs) := by
  rcases he : e.quantity with _ | qe
  · have hx : x.quantity = none := by
      rcases hx' : x.quantity with _ | q
      · rfl
      · rw [he, hx'] at hpres; simp at hpres
    simp [merge_spec, merge_qty, he, hx]
  · rcases hx : x.quantity with _ | qx
    · rw [he, hx] at hpres; simp at hpres
    · simp only [merge_qty, he, hx, merge_spec, qsum_cons]
      simp [add_assoc]

/-- The central characterisation of the merge loop: looking up a bucket in
the dict built from an accumulator `m` and an item stream `L`. -/
theorem foldl_insert_find (L : List ShoppingItem) :
    ∀ m b, WFq m →
      assoc_find b (L.foldl insert_item m) =
        match assoc_find b m with
        | none => agg_spec (bitems L b)
        | some e => some (merge_spec e (bitems L b)) := by
  induction L with
  | nil =>
    intro m b _
    rcases h : assoc_find b m with _ | e
    · simp [h, bitems, agg_spec]
    · simp [h, bitems, merge_spec_nil]
  | cons x L ih =>
    intro m b hm
    have hm' : WFq (insert_item m x) := WFq_insert m x hm
    rw [List.foldl_cons, ih (insert_item m x) b hm', bitems_cons]
    by_cases hbx : bucket_of x = b
    · subst hbx
      rw [insert_item_find_eq]
      rcases hfind : assoc_find (bucket_of x) m with _ | e
      · simp [hfind, agg_spec]
      · have hex : e.quantity.isNone = (bucket_of x).2.2 := hm _ _ hfind
        have hxx : x.quantity.isNone = (bucket_of x).2.2 := rfl
        have hpres : e.quantity.isNone = x.quantity.isNone := by rw [hex, hxx]
        simp [hfind, merge_spec_step e x _ hpres]
    · rw [insert_item_find_ne _ _ _ (fun h => hbx h.symm), if_neg hbx]

/-- Bucket lookup in the merged dict equals the declarative bucket value. -/
theorem build_merged_find (L : List ShoppingItem) (b : Bucket) :
    assoc_find b (build_merged L) = agg_spec (bitems L b) := by
  rw [build_merged, foldl_insert_find L [] b WFq_nil]
  simp [assoc_find]

/-! ## Uniqueness of buckets and representative shape -/

theorem assoc_update_keys (b : Bucket) (x : ShoppingItem)
    (m : List (Bucket × ShoppingItem)) :
    (assoc_update b x m).map Prod.fst = m.map Prod.fst := by
  induction m with
  | nil => simp [assoc_update]
  | cons p rest ih =>
    by_cases hp : p.1 = b <;> simp [assoc_update, hp, ih]

theorem assoc_find_eq_none_iff (b : Bucket) (m : List (Bucket × ShoppingItem)) :
    assoc_find b m = none ↔ b ∉ m.map Prod.fst := by
  induction m with
  | nil => simp [assoc_find]
  | cons p rest ih =>
    by_cases hp : p.1 = b
    · simp [assoc_find, hp]
    · simp [assoc_find, hp, ih, List.mem_cons, Ne.symm hp]

theorem insert_item_keys_nodup (m : List (Bucket × ShoppingItem))
    (x : ShoppingItem) (h : (m.map Prod.fst).Nodup) :
    ((insert_item m x).map Prod.fst).Nodup := by
  rcases hf : assoc_find (bucket_of x) m with _ | e
  · have hnot : bucket_of x ∉ m.map Prod.fst := (assoc_find_eq_none_iff _ m).mp hf
    simp only [insert_item, hf]
    simp [List.nodup_append, h, hnot]
  · simp only [insert_item, hf, assoc_update_keys]
    exact h

theorem build_merged_keys_nodup (L : List ShoppingItem) :
    ((build_merged L).map Prod.fst).Nodup := by
  rw [build_merged]
  have : ∀ m, (m.map Prod.fst).Nodup →
      ((L.foldl insert_item m).map Prod.fst).Nodup := by
    induction L with
    | nil => intro m hm; simpa using hm
    | cons x L ih =>
      intro m hm
      exact ih _ (insert_item_keys_nodup m x hm)
  exact this [] (by simp)

theorem bucket_of_merge_spec (x : ShoppingItem) (xs : List ShoppingItem) :
    bucket_of (merge_spec x xs) = bucket_of x := by
  rcases hx : x.quantity with _ | qx <;> simp [merge_spec, hx, bucket_of]

theorem agg_spec_bucket (xs : List ShoppingItem) (b : Bucket)
    (hxs : ∀ x ∈ xs, bucket_of x = b) (it : ShoppingItem)
    (h : agg_spec xs = some it) : bucket_of it = b := by
  cases xs with
  | nil => simp [agg_spec] at h
  | cons x t =>
    simp only [agg_spec, Option.some.injEq] at h
    subst h
    rw [bucket_of_merge_spec]
    exact hxs x (by simp)

theorem assoc_find_mem (b : Bucket) (m : List (Bucket × ShoppingItem))
    (it : ShoppingItem) (h : assoc_find b m = some it) : (b, it) ∈ m := by
  induction m with
  | nil => simp [assoc_find] at h
  | cons p rest ih =>
    by_cases hp : p.1 = b
    · simp only [assoc_find] at h
      rw [if_pos hp] at h
      injection h with h2
      have hpe : p = (b, it) := by
        calc p = (p.1, p.2) := rfl
          _ = (b, it) := by rw [hp, h2]
      subst hpe
      exact List.mem_cons_self _ _
    · simp only [assoc_find] at h
      rw [if_neg hp] at h
      exact List.mem_cons_of_mem _ (ih h)

/-! ## The stable sort of `sorted(..., key=...)` -/

theorem chars_lt_irrefl (a : List Char) : chars_lt a a = false := by
  induction a with
  | nil => rfl
  | cons x xs ih => simp [chars_lt, ih]

theorem chars_lt_trans {a b c : List Char} (hab : chars_lt a b = true)
    (hbc : chars_lt b c = true) : chars_lt a c = true := by
  induction a generalizing b c with
  | nil =>
    cases b with
    | nil => simp [chars_lt] at hab
    | cons y ys =>
      cases c with
      | nil => simp [chars_lt] at hbc
      | cons z zs => simp [chars_lt]
  | cons x xs ih =>
    cases b with
    | nil => simp [chars_lt] at hab
    | cons y ys =>
      cases c with
      | nil => simp [chars_lt] at hbc
      | cons z zs =>
        simp only [chars_lt] at hab hbc ⊢
        by_cases hxy : x = y
        · subst hxy
          simp only [if_pos rfl] at hab
          by_cases hxz : x = z
          · subst hxz
            simp only [if_pos rfl] at hbc ⊢
            exact ih hab hbc
          · simp only [if_neg hxz] at hbc ⊢
            exact hbc
        · simp only [if_neg hxy, decide_eq_true_eq] at hab
          by_cases hyz : y = z
          · subst hyz
            simp only [if_neg hxy, decide_eq_true_eq]
            exact hab
          · simp only [if_neg hyz, decide_eq_true_eq] at hbc
            have hxz : x < z := lt_trans hab hbc
            simp only [if_neg (ne_of_lt hxz), decide_eq_true_eq]
            exact hxz

theorem chars_lt_total (a b : List Char) (h : a ≠ b) :
    chars_lt a b = true ∨ chars_lt b a = true := by
  induction a generalizing b with
  | nil =>
    cases b with
    | nil => exact absurd rfl h
    | cons y ys => left; simp [chars_lt]
  | cons x xs ih =>
    cases b with
    | nil => right; simp [chars_lt]
    | cons y ys =>
      by_cases hxy : x = y
      · subst hxy
        have hys : xs ≠ ys := by
          intro hcon
          exact h (by rw [hcon])
        rcases ih ys hys with h1 | h1
        · left; simp [chars_lt, h1]
        · right; simp [chars_lt, h1]
      · rcases lt_or_gt_of_ne hxy with hlt | hgt
        · left; simp [chars_lt, hxy, hlt]
        · right; simp [chars_lt, Ne.symm hxy, hgt]

/-- Work with sort keys through their underlying character lists. -/
def key_data (k : String × String × String) : List Char × List Char × List Char :=
  (k.1.data, k.2.1.data, k.2.2.data)

theorem string_eq_of_data {s t : String} (h : s.data = t.data) : s = t := by
  cases s; cases t; exact congrArg String.mk h

theorem key_lt_iff (a b : String × String × String) :
    key_lt a b = true ↔
      chars_lt a.1.data b.1.data = true ∨
        (a.1.data = b.1.data ∧
          (chars_lt a.2.1.data b.2.1.data = true ∨
            (a.2.1.data = b.2.1.data ∧ chars_lt a.2.2.data b.2.2.data = true))) := by
  constructor
  · intro h
    simp only [key_lt, Bool.or_eq_true, Bool.and_eq_true, decide_eq_true_eq] at h
    rcases h with h | ⟨h1, h | ⟨h2, h⟩⟩
    · exact Or.inl h
    · exact Or.inr ⟨congrArg String.data h1, Or.inl h⟩
    · exact Or.inr ⟨congrArg String.data h1, Or.inr ⟨congrArg String.data h2, h⟩⟩
  · intro h
    simp only [key_lt, Bool.or_eq_true, Bool.and_eq_true, decide_eq_true_eq]
    rcases h with h | ⟨h1, h⟩
    · exact Or.inl h
    · have e1 : a.1 = b.1 := string_eq_of_data h1
      rcases h with h | ⟨h2, h⟩
      · exact Or.inr ⟨e1, Or.inl h⟩
      · exact Or.inr ⟨e1, Or.inr ⟨string_eq_of_data h2, h⟩⟩

theorem key_lt_trans {a b c : String × String × String}
    (hab : key_lt a b = true) (hbc : key_lt b c = true) : key_lt a c = true := by
  rw [key_lt_iff] at hab hbc ⊢
  rcases hab with h1 | ⟨e1, hab⟩
  · rcases hbc with h2 | ⟨e2, _⟩
    · exact Or.inl (chars_lt_trans h1 h2)
    · rw [e2] at h1; exact Or.inl h1
  · rcases hbc with h2 | ⟨e2, hbc⟩
    · rw [e1]; exact Or.inl h2
    · refine Or.inr ⟨e1.trans e2, ?_⟩
      rcases hab with h1 | ⟨f1, hab⟩
      · rcases hbc with h2 | ⟨f2, _⟩
        · exact Or.inl (chars_lt_trans h1 h2)
        · rw [f2] at h1; exact Or.inl h1
      · rcases hbc with h2 | ⟨f2, hbc⟩
        · rw [f1]; exact Or.inl h2
        · exact Or.inr ⟨f1.trans f2, chars_lt_trans hab hbc⟩

theorem key_lt_irrefl (a : String × String × String) : key_lt a a = false := by
  rcases h : key_lt a a with _ | _
  · rfl
  · exfalso
    rw [key_lt_iff] at h
    rcases h with h | ⟨_, h | ⟨_, h⟩⟩ <;> simp [chars_lt_irrefl] at h

theorem key_lt_asymm {a b : String × String × String}
    (h : key_lt a b = true) : key_lt b a = false := by
  rcases hc : key_lt b a with _ | _
  · rfl
  · have := key_lt_trans h hc
    rw [key_lt_irrefl] at this
    exact absurd this (by simp)

theorem key_lt_trichotomy (a b : String × String × String) :
    key_lt a b = true ∨ key_lt b a = true ∨ a = b := by
  by_cases e1 : a.1.data = b.1.data
  · by_cases e2 : a.2.1.data = b.2.1.data
    · by_cases e3 : a.2.2.data = b.2.2.data
      · right; right
        have g1 := string_eq_of_data e1
        have g2 := string_eq_of_data e2
        have g3 := string_eq_of_data e3
        calc a = (a.1, a.2.1, a.2.2) := rfl
          _ = (b.1, b.2.1, b.2.2) := by rw [g1, g2, g3]
          _ = b := rfl
      · rcases chars_lt_total _ _ e3 with h | h
        · left; rw [key_lt_iff]; exact Or.inr ⟨e1, Or.inr ⟨e2, h⟩⟩
        · right; left; rw [key_lt_iff]
          exact Or.inr ⟨e1.symm, Or.inr ⟨e2.symm, h⟩⟩
    · rcases chars_lt_total _ _ e2 with h | h
      · left; rw [key_lt_iff]; exact Or.inr ⟨e1, Or.inl h⟩
      · right; left; rw [key_lt_iff]; exact Or.inr ⟨e1.symm, Or.inl h⟩
  · rcases chars_lt_total _ _ e1 with h | h
    · left; rw [key_lt_iff]; exact Or.inl h
    · right; left; rw [key_lt_iff]; exact Or.inl h

theorem key_not_lt_trans {a b c : String × String × String}
    (hba : key_lt b a = false) (hcb : key_lt c b = false) :
    key_lt c a = false := by
  rcases hc : key_lt c a with _ | _
  · rfl
  · exfalso
    rcases key_lt_trichotomy b c with h | h | h
    · have h2 : key_lt b a = true := key_lt_trans h hc
      rw [h2] at hba
      simp at hba
    · rw [h] at hcb
      simp at hcb
    · rw [h] at hba
      rw [hc] at hba
      simp at hba

theorem mem_sort_insert (a x : ShoppingItem) (l : List ShoppingItem) :
    a ∈ sort_insert x l ↔ a = x ∨ a ∈ l := by
  induction l with
  | nil => simp [sort_insert]
  | cons y ys ih =>
    simp only [sort_insert]
    by_cases h : key_lt (sort_key y) (sort_key x) = true
    · rw [if_pos h]
      simp only [List.mem_cons, ih]
      tauto
    · rw [if_neg h]
      simp [List.mem_cons]

theorem mem_sort_items (a : ShoppingItem) (l : List ShoppingItem) :
    a ∈ sort_items l ↔ a ∈ l := by
  induction l with
  | nil => simp [sort_items]
  | cons x xs ih => simp [sort_items, mem_sort_insert, ih]

/-- Nondecreasing order of the emitted items: no later item's sort key is
strictly below an earlier one's. -/
def SortedKeys (l : List ShoppingItem) : Prop :=
  l.Pairwise (fun u v => key_lt (sort_key v) (sort_key u) = false)

theorem sort_insert_sorted (x : ShoppingItem) (l : List ShoppingItem)
    (h : SortedKeys l) : SortedKeys (sort_insert x l) := by
  induction l with
  | nil => simp [sort_insert, SortedKeys]
  | cons y ys ih =>
    rcases h with _ | ⟨hhead, hys⟩
    by_cases hk : key_lt (sort_key y) (sort_key x) = true
    · rw [sort_insert, if_pos hk]
      constructor
      · intro a ha
        rcases (mem_sort_insert a x ys).mp ha with rfl | ha
        · exact key_lt_asymm hk
        · exact hhead a ha
      · exact ih hys
    · rw [sort_insert, if_neg hk]
      have hk' : key_lt (sort_key y) (sort_key x) = false := by
        rcases hc : key_lt (sort_key y) (sort_key x) with _ | _
        · rfl
        · exact absurd hc hk
      constructor
      · intro a ha
        rcases List.mem_cons.mp ha with rfl | ha
        · exact hk'
        · exact key_not_lt_trans hk' (hhead a ha)
      · exact List.Pairwise.cons hhead hys

theorem sort_items_sorted (l : List ShoppingItem) : SortedKeys (sort_items l) := by
  induction l with
  | nil => constructor
  | cons x xs ih => exact sort_insert_sorted x (sort_items xs) ih

/-- Quantity view of one bucket's declarative value: quantity-less buckets
carry `none`, quantified buckets carry the sum of all their quantities. -/
theorem agg_spec_quantity (xs : List ShoppingItem) (b : Bucket)
    (hxs : ∀ x ∈ xs, bucket_of x = b) :
    (agg_spec xs).map (fun it => it.quantity) =
      if xs.isEmpty then none
      else some (if b.2.2 then none else some (qsum xs)) := by
  cases xs with
  | nil => simp [agg_spec]
  | cons x t =>
    have hx : bucket_of x = b := hxs x (by simp)
    have hpres : x.quantity.isNone = b.2.2 := bucket_of_quantity_isNone x b hx
    rcases hq : x.quantity with _ | qx
    · have : b.2.2 = true := by rw [← hpres, hq]; rfl
      simp [agg_spec, merge_spec, hq, this]
    · have : b.2.2 = false := by rw [← hpres, hq]; rfl
      simp [agg_spec, merge_spec, hq, this, qsum_cons]

/-- The doubling map applied to a bucket representative when its bucket's
items are consumed twice. -/
def double_qty (it : ShoppingItem) : ShoppingItem :=
  { it with quantity := it.quantity.map (fun q => q + q) }

/-! ## Claim theorems -/

/-- C6: aggregating a list against itself (`L ++ L`) produces exactly the
buckets of `L` — each appearing once (the merged dict's keys are without
duplicates) — where every quantified bucket's summed quantity is doubled
and every quantity-less bucket's representative is unchanged. -/
theorem claim_self_merge_doubles (L : List ShoppingItem) :
    ((build_merged (L ++ L)).map Prod.fst).Nodup ∧
    ∀ b, assoc_find b (build_merged (L ++ L)) =
      (assoc_find b (build_merged L)).map double_qty := by
  refine ⟨build_merged_keys_nodup _, fun b => ?_⟩
  rw [build_merged_find, build_merged_find, bitems_append]
  rcases hx : bitems L b with _ | ⟨x, t⟩
  · simp [agg_spec]
  · rcases x with ⟨xq, xu, xn, xk, xs, xl⟩
    rcases xq with _ | q
    · simp [agg_spec, merge_spec, double_qty]
    · simp only [agg_spec, List.cons_append, Option.map_some', merge_spec,
        double_qty, Option.some.injEq, Option.map_some]
      simp only [ShoppingItem.mk.injEq, true_and, and_true, Option.some.injEq]
      rw [qsum_append, qsum_cons]
      simp only [Option.getD_some]
      ring

/-- C7: the emitted lines are the formatted items of the merged dict's
values sorted by the triple `(aggregation key, unit-or-empty, lowercased
display name)`, and that sorted sequence is ascending: every later item's
sort key is greater than or equal to (strictly greater, or equal as a
triple) each earlier one's. -/
theorem claim_output_sorted (L : List ShoppingItem) :
    aggregate_items L =
      (sort_items ((build_merged L).map Prod.snd)).map format_item ∧
    (sort_items ((build_merged L).map Prod.snd)).Pairwise
      (fun u v => key_lt (sort_key u) (sort_key v) = true ∨ sort_key u = sort_key v) := by
  refine ⟨rfl, ?_⟩
  refine (sort_items_sorted ((build_merged L).map Prod.snd)).imp ?_
  intro u v huv
  rcases key_lt_trichotomy (sort_key u) (sort_key v) with h | h | h
  · exact Or.inl h
  · rw [h] at huv; simp at huv
  · exact Or.inr h

/-- C5 (amended): per bucket, merging `A ++ B` and merging `B ++ A` yield
the same stored quantity (the rational sum over the bucket, or `none` for
quantity-less buckets), and both runs' outputs are sorted by the
`(key, unit, lowercased name)` triple.  The representative display data and
the relative order of tied buckets may still differ between the runs. -/
theorem claim_merge_order_independent (A B : List ShoppingItem) :
    (∀ b, (assoc_find b (build_merged (A ++ B))).map (fun it => it.quantity) =
          (assoc_find b (build_merged (B ++ A))).map (fun it => it.quantity)) ∧
    (sort_items ((build_merged (A ++ B)).map Prod.snd)).Pairwise
      (fun u v => key_lt (sort_key v) (sort_key u) = false) ∧
    (sort_items ((build_merged (B ++ A)).map Prod.snd)).Pairwise
      (fun u v => key_lt (sort_key v) (sort_key u) = false) := by
  refine ⟨fun b => ?_, sort_items_sorted _, sort_items_sorted _⟩
  rw [build_merged_find, build_merged_find, bitems_append, bitems_append]
  rw [agg_spec_quantity _ b, agg_spec_quantity _ b]
  · have hempty : (bitems B b ++ bitems A b).isEmpty = (bitems A b ++ bitems B b).isEmpty := by
      rcases ha : bitems A b with _ | _ <;> rcases hb : bitems B b with _ | _ <;>
        simp [ha, hb]
    rw [hempty, qsum_append, qsum_append, add_comm (qsum (bitems B b))]
  · intro x hx
    rcases List.mem_append.mp hx with h | h
    · exact bitems_mem B b x h
    · exact bitems_mem A b x h
  · intro x hx
    rcases List.mem_append.mp hx with h | h
    · exact bitems_mem A b x h
    · exact bitems_mem B b x h

/-- C5 (counterexample): the outputs of the two embedding orders contain
the same lines, but not in the same order — a quantity-less and a
quantified `salt` bucket tie on the sort key, so the stable sort keeps
their first-seen order, which differs between the two runs. -/
theorem claim_merge_order_counterexample :
    build_shopping_list
        [("a.md", "## Ingredients\n- salt"), ("b.md", "## Ingredients\n- 1 salt")] =
      .ok ["salt", "1 salt"] ∧
    build_shopping_list
        [("b.md", "## Ingredients\n- 1 salt"), ("a.md", "## Ingredients\n- salt")] =
      .ok ["1 salt", "salt"] ∧
    (["salt", "1 salt"] : List String) ≠ ["1 salt", "salt"] := by
  refine ⟨by decide, by decide, by decide⟩

/-- C4: two parsed items with the same aggregation key but different
recognized units land in different buckets, and the output carries a
distinct line (at distinct positions) for each of the two buckets. -/
theorem claim_units_never_merged (L : List ShoppingItem) (i1 i2 : ShoppingItem)
    (h1 : i1 ∈ L) (h2 : i2 ∈ L) (hkey : i1.key = i2.key)
    (u1 u2 : String) (hu1 : i1.unit = some u1) (hu2 : i2.unit = some u2)
    (hne : u1 ≠ u2) :
    bucket_of i1 ≠ bucket_of i2 ∧
    ∃ j1 j2 r1 r2, j1 ≠ j2 ∧
      (sort_items ((build_merged L).map Prod.snd)).get? j1 = some r1 ∧
      (sort_items ((build_merged L).map Prod.snd)).get? j2 = some r2 ∧
      bucket_of r1 = bucket_of i1 ∧ bucket_of r2 = bucket_of i2 ∧
      (aggregate_items L).get? j1 = some (format_item r1) ∧
      (aggregate_items L).get? j2 = some (format_item r2) := by
  have hbne : bucket_of i1 ≠ bucket_of i2 := by
    intro h
    have : (bucket_of i1).2.1 = (bucket_of i2).2.1 := by rw [h]
    rw [bucket_of, bucket_of, hu1, hu2] at this
    exact hne this
  refine ⟨hbne, ?_⟩
  have hrep : ∀ i : ShoppingItem, i ∈ L → ∃ r,
      assoc_find (bucket_of i) (build_merged L) = some r ∧
      bucket_of r = bucket_of i := by
    intro i hi
    have hmem : i ∈ bitems L (bucket_of i) := by
      simp [bitems, List.mem_filter, hi]
    rcases hb : bitems L (bucket_of i) with _ | ⟨x, t⟩
    · rw [hb] at hmem; simp at hmem
    · refine ⟨merge_spec x t, ?_, ?_⟩
      · rw [build_merged_find, hb]; rfl
      · rw [bucket_of_merge_spec]
        exact bitems_mem L (bucket_of i) x (by rw [hb]; simp)
  rcases hrep i1 h1 with ⟨r1, hf1, hb1⟩
  rcases hrep i2 h2 with ⟨r2, hf2, hb2⟩
  have hr1mem : r1 ∈ sort_items ((build_merged L).map Prod.snd) := by
    rw [mem_sort_items]
    exact List.mem_map_of_mem Prod.snd (assoc_find_mem _ _ _ hf1)
  have hr2mem : r2 ∈ sort_items ((build_merged L).map Prod.snd) := by
    rw [mem_sort_items]
    exact List.mem_map_of_mem Prod.snd (assoc_find_mem _ _ _ hf2)
  rcases List.get_of_mem hr1mem with ⟨⟨j1, hj1lt⟩, hj1⟩
  rcases List.get_of_mem hr2mem with ⟨⟨j2, hj2lt⟩, hj2⟩
  have hg1 : (sort_items ((build_merged L).map Prod.snd)).get? j1 = some r1 := by
    rw [List.get?_eq_get hj1lt, hj1]
  have hg2 : (sort_items ((build_merged L).map Prod.snd)).get? j2 = some r2 := by
    rw [List.get?_eq_get hj2lt, hj2]
  have hrne : r1 ≠ r2 := by
    intro h
    rw [h, hb2] at hb1
    exact hbne hb1.symm
  have hjne : j1 ≠ j2 := by
    intro h
    rw [h, hg2] at hg1
    injection hg1 with hg1
    exact hrne hg1.symm
  refine ⟨j1, j2, r1, r2, hjne, hg1, hg2, hb1, hb2, ?_, ?_⟩
  · rw [aggregate_items, List.get?_map, hg1]; rfl
  · rw [aggregate_items, List.get?_map, hg2]; rfl

/-- The two `sugar` items of spec scenario 2, as `_parse_ingredient_line`
produces them from `"- 100 g sugar"` and `"- 1 cup sugar"`. -/
def sugar_gram_item : ShoppingItem :=
  ⟨some 100, some "g", "sugar", "sugar", "a.md", 1⟩

def sugar_cup_item : ShoppingItem :=
  ⟨some 1, some "cup", "sugar", "sugar", "b.md", 1⟩

/-- Witness for C4 at scenario 2: `100 g sugar` and `1 cup sugar` survive as
lines of distinct buckets. -/
theorem claim_units_never_merged_witness :
    bucket_of sugar_gram_item ≠ bucket_of sugar_cup_item ∧
    ∃ j1 j2 r1 r2, j1 ≠ j2 ∧
      (sort_items ((build_merged [sugar_gram_item, sugar_cup_item]).map Prod.snd)).get? j1 =
        some r1 ∧
      (sort_items ((build_merged [sugar_gram_item, sugar_cup_item]).map Prod.snd)).get? j2 =
        some r2 ∧
      bucket_of r1 = bucket_of sugar_gram_item ∧
      bucket_of r2 = bucket_of sugar_cup_item ∧
      (aggregate_items [sugar_gram_item, sugar_cup_item]).get? j1 = some (format_item r1) ∧
      (aggregate_items [sugar_gram_item, sugar_cup_item]).get? j2 = some (format_item r2) :=
  claim_units_never_merged [sugar_gram_item, sugar_cup_item]
    sugar_gram_item sugar_cup_item
    (List.mem_cons_self _ _) (List.mem_cons_of_mem _ (List.mem_cons_self _ _)) rfl
    "g" "cup" rfl rfl (by decide)

/-- C1 (refuted, code bug): the post-aggregation audit is reachable.  The
document `"## Ingredients\n- 1/0 2 eggs"` parses cleanly into one
quantity-less item named `2 eggs`, whose emitted line `"2 eggs"` is
re-keyed by `_shopping_line_key` as quantity `2` of `eggs` — so the item's
key `2 eggs` is missing from the re-derived output keys and
`build_shopping_list` raises even though the item is represented. -/
theorem claim_consistency_check_fires :
    extract_ingredient_items "## Ingredients\n- 1/0 2 eggs" "recipe.md" =
      .ok [⟨none, none, "2 eggs", "2 eggs", "recipe.md", 1⟩] ∧
    shopping_line_key "2 eggs" = "eggs" ∧
    build_shopping_list [("recipe.md", "## Ingredients\n- 1/0 2 eggs")] =
      .error ⟨"recipe.md: ingredients line 1 not represented in shopping list: '2 eggs'"⟩ := by
  refine ⟨by decide, by decide, by decide⟩

/-- C2 (counterexample): `"0.3"` parses to exactly `3/10`, which is not a
multiple of `1/16` at all (`16 · (3/10) = 24/5` is not an integer), refuting
rounding to the nearest sixteenth; likewise `"0.55"` yields `6/11`.
`limit_denominator(16)` returns the closest fraction with denominator at
most 16, not the closest sixteenth. -/
theorem claim_decimal_not_sixteenth :
    parse_quantity "0.3" = some ((3 : ℚ)/10) ∧
    ((16 : ℚ) * ((3 : ℚ)/10)).den ≠ 1 ∧
    parse_quantity "0.55" = some ((6 : ℚ)/11) ∧
    ((16 : ℚ) * ((6 : ℚ)/11)).den ≠ 1 := by
  refine ⟨by decide, by decide, by decide, by decide⟩

/-- C3 (counterexample): on `"1/0 cup milk"` the quantity `1/0` fails to
parse, yet the parser does not keep the whole line as the name: it attaches
unit `cup` and names the item `milk`. -/
theorem claim_failed_quantity_keeps_parsing :
    parse_ingredient_line "1/0 cup milk" "r.md" 1 =
      .ok ⟨none, some "cup", "milk", "milk", "r.md", 1⟩ ∧
    (some "cup" : Option String) ≠ none ∧
    ("milk" : String) ≠ "1/0 cup milk" := by
  refine ⟨by decide, by decide, by decide⟩

theorem quantity_re_match_empty : quantity_re_match "" = none := by decide

/-- C3 (amended): a numeric-looking prefix whose quantity fails to parse is
handled without raising on the quantity itself: the item is quantity-less,
but the remainder after the prefix is still processed exactly as for a
successful quantity — a recognized unit token followed by nonempty text is
attached as the unit with the tail as the name, otherwise the remainder
after the prefix (not the whole line) becomes the name; the parser raises
only when the chosen name normalizes to empty. -/
theorem claim_failed_quantity_degrades (line source_path : String) (n : ℕ)
    (qs rest0 : String)
    (hm : quantity_re_match (py_strip line) = some (qs, rest0))
    (hq : parse_quantity qs = none) :
    parse_ingredient_line line source_path n =
      (let text := py_strip line
       let rest := py_strip rest0
       let token := (partition_space rest).1
       let tail := (partition_space rest).2
       let attach : Bool :=
         match normalize_unit token with
         | some c => decide (c ≠ "" ∧ py_strip tail ≠ "")
         | none => false
       let nm : String :=
         if rest = "" then text else if attach then py_strip tail else rest
       let un : Option String := if attach then normalize_unit token else none
       if normalize_name nm = "" then
         .error ⟨source_path ++ ": ingredients line " ++ toString n ++
           " has no parseable ingredient name: " ++ py_repr text⟩
       else .ok ⟨none, un, display_name nm, normalize_name nm, source_path, n⟩) := by
  have htext : ¬ py_strip line = "" := by
    intro h
    rw [h, quantity_re_match_empty] at hm
    exact Option.noConfusion hm
  simp only [parse_ingredient_line, hm, hq]
  rw [if_neg htext]
  by_cases hrest : py_strip rest0 = ""
  · have h0 : normalize_unit (partition_space "").1 = none := by decide
    simp [hrest, h0]
  · rw [if_neg hrest]
    rcases hp : partition_space (py_strip rest0) with ⟨token, tail⟩
    rcases hu : normalize_unit token with _ | c
    · simp [hrest, hp, hu]
    · by_cases hcond : c ≠ "" ∧ py_strip tail ≠ ""
      · simp [hrest, hp, hu, hcond]
      · simp [hrest, hp, hu, hcond]

/-- Witness for C3's amended rule at `"1/0 cup milk"`. -/
theorem claim_failed_quantity_degrades_witness :
    parse_ingredient_line "1/0 cup milk" "w.md" 7 =
      (let text := py_strip "1/0 cup milk"
       let rest := py_strip "cup milk"
       let token := (partition_space rest).1
       let tail := (partition_space rest).2
       let attach : Bool :=
         match normalize_unit token with
         | some c => decide (c ≠ "" ∧ py_strip tail ≠ "")
         | none => false
       let nm : String :=
         if rest = "" then text else if attach then py_strip tail else rest
       let un : Option String := if attach then normalize_unit token else none
       if normalize_name nm = "" then
         .error ⟨"w.md" ++ ": ingredients line " ++ toString 7 ++
           " has no parseable ingredient name: " ++ py_repr text⟩
       else .ok ⟨none, un, display_name nm, normalize_name nm, "w.md", 7⟩) :=
  claim_failed_quantity_degrades "1/0 cup milk" "w.md" 7 "1/0" "cup milk"
    (by decide) (by decide)

theorem aliases_values_ne_empty (k v : String) (h : aliases_get k = some v) :
    v ≠ "" := by
  rcases hf : UNIT_ALIASES.find? (fun p => p.1 = k) with _ | p
  · rw [aliases_get, hf] at h
    exact Option.noConfusion h
  · rw [aliases_get, hf] at h
    simp only [Option.map_some', Option.some.injEq] at h
    have hmem := List.mem_of_find?_eq_some hf
    have hall : ∀ p ∈ UNIT_ALIASES, p.2 ≠ "" := by decide
    rw [← h]
    exact hall p hmem

theorem normalize_unit_ne_empty (token v : String)
    (h : normalize_unit token = some v) : v ≠ "" :=
  aliases_values_ne_empty _ v h

/-- C8: when a quantity parses successfully and text follows it, a unit is
attached exactly when the next token normalizes through the alias table and
nonempty text remains after it; an attached unit is that token's canonical
unit and the name is the remaining tail, while an unrecognized (or
tail-less) token stays part of the name. -/
theorem claim_unit_attachment_rule (line source_path : String) (n : ℕ)
    (qs rest0 : String) (q : ℚ)
    (hm : quantity_re_match (py_strip line) = some (qs, rest0))
    (hq : parse_quantity qs = some q)
    (hrest : py_strip rest0 ≠ "") :
    ∀ it, parse_ingredient_line line source_path n = Except.ok it →
      it.quantity = some q ∧
      (it.unit ≠ none ↔
        (normalize_unit (partition_space (py_strip rest0)).1).isSome ∧
        py_strip (partition_space (py_strip rest0)).2 ≠ "") ∧
      (∀ u, it.unit = some u →
        normalize_unit (partition_space (py_strip rest0)).1 = some u ∧
        it.name = display_name (py_strip (partition_space (py_strip rest0)).2)) ∧
      (it.unit = none → it.name = display_name (py_strip rest0)) := by
  have htext : ¬ py_strip line = "" := by
    intro h
    rw [h, quantity_re_match_empty] at hm
    exact Option.noConfusion hm
  intro it hit
  rcases it with ⟨iq, iu, inm, ik, isp, iln⟩
  simp only [parse_ingredient_line, hm, hq] at hit
  rw [if_neg htext, if_neg hrest] at hit
  rcases hp : partition_space (py_strip rest0) with ⟨token, tail⟩
  rcases hu : normalize_unit token with _ | c
  · simp only [hp, hu] at hit
    by_cases hkey : normalize_name (py_strip rest0) = ""
    · rw [if_pos hkey] at hit
      exact Except.noConfusion hit
    · rw [if_neg hkey] at hit
      simp only [Except.ok.injEq, ShoppingItem.mk.injEq] at hit
      obtain ⟨h1, h2, h3, h4, h5, h6⟩ := hit
      subst h1; subst h2; subst h3; subst h4; subst h5; subst h6
      refine ⟨rfl, by simp, ?_, fun _ => rfl⟩
      intro u hcon
      exact Option.noConfusion hcon
  · have hc : c ≠ "" := normalize_unit_ne_empty token c hu
    simp only [hp, hu] at hit
    by_cases htail : py_strip tail ≠ ""
    · have hand : c ≠ "" ∧ py_strip tail ≠ "" := ⟨hc, htail⟩
      simp only [if_pos hand] at hit
      by_cases hkey : normalize_name (py_strip tail) = ""
      · rw [if_pos hkey] at hit
        exact Except.noConfusion hit
      · rw [if_neg hkey] at hit
        simp only [Except.ok.injEq, ShoppingItem.mk.injEq] at hit
        obtain ⟨h1, h2, h3, h4, h5, h6⟩ := hit
        subst h1; subst h2; subst h3; subst h4; subst h5; subst h6
        refine ⟨rfl, by simp [htail], ?_, ?_⟩
        · intro u hcu
          injection hcu with hcu
          subst hcu
          exact ⟨rfl, rfl⟩
        · intro hcon
          exact Option.noConfusion hcon
    · have hand2 : ¬ (c ≠ "" ∧ py_strip tail ≠ "") := fun hand => htail hand.2
      simp only [if_neg hand2] at hit
      by_cases hkey : normalize_name (py_strip rest0) = ""
      · rw [if_pos hkey] at hit
        exact Except.noConfusion hit
      · rw [if_neg hkey] at hit
        simp only [Except.ok.injEq, ShoppingItem.mk.injEq] at hit
        obtain ⟨h1, h2, h3, h4, h5, h6⟩ := hit
        subst h1; subst h2; subst h3; subst h4; subst h5; subst h6
        refine ⟨rfl, ?_, ?_, fun _ => rfl⟩
        · constructor
          · intro hcon
            exact absurd rfl hcon
          · intro hand
            exact absurd hand.2 htail
        · intro u hcon
          exact Option.noConfusion hcon

/-- Witness for C8 at the claim's own example `"2 cups"`: the token `cups`
is in the alias table but nothing follows it, so no unit is attached and
the name is `cups`. -/
theorem claim_unit_attachment_rule_witness :
    parse_ingredient_line "2 cups" "w.md" 3 =
      Except.ok ⟨some 2, none, "cups", "cups", "w.md", 3⟩ ∧
    ((⟨some 2, none, "cups", "cups", "w.md", 3⟩ : ShoppingItem).quantity = some 2 ∧
      ((⟨some 2, none, "cups", "cups", "w.md", 3⟩ : ShoppingItem).unit ≠ none ↔
        (normalize_unit (partition_space (py_strip "cups")).1).isSome ∧
        py_strip (partition_space (py_strip "cups")).2 ≠ "") ∧
      (∀ u, (⟨some 2, none, "cups", "cups", "w.md", 3⟩ : ShoppingItem).unit = some u →
        normalize_unit (partition_space (py_strip "cups")).1 = some u ∧
        (⟨some 2, none, "cups", "cups", "w.md", 3⟩ : ShoppingItem).name =
          display_name (py_strip (partition_space (py_strip "cups")).2)) ∧
      ((⟨some 2, none, "cups", "cups", "w.md", 3⟩ : ShoppingItem).unit = none →
        (⟨some 2, none, "cups", "cups", "w.md", 3⟩ : ShoppingItem).name =
          display_name (py_strip "cups"))) := by
  have hok : parse_ingredient_line "2 cups" "w.md" 3 =
      Except.ok ⟨some 2, none, "cups", "cups", "w.md", 3⟩ := by decide
  refine ⟨hok, ?_⟩
  exact claim_unit_attachment_rule "2 cups" "w.md" 3 "2" "cups" 2
    (by decide) (by decide) (by decide) _ hok

/-- C9: while iterating the extracted Ingredients section, a blank
non-bullet line is skipped (no item, no error, the index advances), a
non-blank non-bullet line aborts with `ShoppingParseError` whose message
carries the source identifier and the current line index — and
`_extract_ingredient_items` starts that index at 1 over the extracted
section's lines, making the reported numbers 1-based. -/
theorem claim_non_bullet_lines (source_path : String) (idx : ℕ) (line : String)
    (rest : List String) (hb : bullet_re_match line = none) :
    (py_strip line = "" →
      extract_loop source_path idx (line :: rest) =
        extract_loop source_path (idx + 1) rest) ∧
    (py_strip line ≠ "" →
      extract_loop source_path idx (line :: rest) =
        .error ⟨source_path ++ ": ingredients line " ++ toString idx ++
          " is not a bullet: " ++ py_repr (py_strip line)⟩) ∧
    (∀ md src, extract_ingredient_items md src =
      extract_loop src 1 (py_splitlines
        (sections_get (extract_sections (split_frontmatter_body md) 2)
          "Ingredients" ""))) := by
  refine ⟨?_, ?_, fun md src => rfl⟩
  · intro h
    simp [extract_loop, hb, h]
  · intro h
    simp [extract_loop, hb, h, malformed_msg]

/-- Witness for C9: a non-blank non-bullet aborts with the exact message, a
blank line is skipped, and the loop starts at line 1. -/
theorem claim_non_bullet_lines_witness :
    (extract_loop "Recipes/Bad.md" 2 ["not-a-bullet"] =
      .error ⟨"Recipes/Bad.md" ++ ": ingredients line " ++ toString 2 ++
        " is not a bullet: " ++ py_repr (py_strip "not-a-bullet")⟩) ∧
    (extract_loop "Recipes/Bad.md" 5 ["", "- 1 egg"] =
      extract_loop "Recipes/Bad.md" 6 ["- 1 egg"]) ∧
    (extract_ingredient_items "## Ingredients\n- salt" "r.md" =
      extract_loop "r.md" 1 (py_splitlines
        (sections_get (extract_sections (split_frontmatter_body "## Ingredients\n- salt") 2)
          "Ingredients" ""))) :=
  ⟨(claim_non_bullet_lines "Recipes/Bad.md" 2 "not-a-bullet" [] (by decide)).2.1 (by decide),
   (claim_non_bullet_lines "Recipes/Bad.md" 5 "" ["- 1 egg"] (by decide)).1 (by decide),
   (claim_non_bullet_lines "x" 0 "" [] (by decide)).2.2 "## Ingredients\n- salt" "r.md"⟩

/-! ## Digit-string lemmas for the decimal branch -/

theorem strip_by_id (p : Char → Bool) (cs : List Char)
    (h : ∀ c ∈ cs, p c = false) : strip_by p cs = cs := by
  have hdrop : ∀ l : List Char, (∀ c ∈ l, p c = false) → l.dropWhile p = l := by
    intro l hl
    cases l with
    | nil => rfl
    | cons x xs => rw [List.dropWhile_cons_of_neg (by simp [hl x (by simp)])]
  rw [strip_by, hdrop _ h, hdrop]
  · simp
  · intro c hc
    exact h c (by simpa using hc)

theorem contains_eq_false {a : Char} {l : List Char} (h : a ∉ l) :
    l.contains a = false := by
  induction l with
  | nil => rfl
  | cons x xs ih =>
    have hax : ¬ (a == x) = true := by
      simp only [beq_iff_eq]
      intro hcon
      exact h (by rw [hcon]; exact List.mem_cons_self _ _)
    have hm : a ∉ xs := fun hmem => h (List.mem_cons_of_mem _ hmem)
    simp only [List.contains_cons, Bool.or_eq_false_iff]
    constructor
    · exact Bool.eq_false_iff.mpr hax
    · exact ih hm

theorem takeWhile_append_stop (p : Char → Bool) (xs : List Char) (y : Char)
    (ys : List Char) (hxs : ∀ c ∈ xs, p c = true) (hy : p y = false) :
    (xs ++ y :: ys).takeWhile p = xs ∧ (xs ++ y :: ys).dropWhile p = y :: ys := by
  induction xs with
  | nil =>
    constructor
    · simp [List.takeWhile_cons, hy]
    · simp [List.dropWhile_cons, hy]
  | cons x xt ih =>
    have hx : p x = true := hxs x (by simp)
    have ht : ∀ c ∈ xt, p c = true := fun c hc => hxs c (List.mem_cons_of_mem _ hc)
    rcases ih ht with ⟨h1, h2⟩
    constructor
    · simp [List.takeWhile_cons, hx, h1]
    · simp [List.dropWhile_cons, hx, h2]

theorem digit_not_space {c : Char} (h : c.isDigit = true) :
    is_space_char c = false := by
  rcases hs : is_space_char c with _ | _
  · rfl
  · exfalso
    simp only [is_space_char, Bool.or_eq_true, decide_eq_true_eq] at hs
    rcases hs with ((((h1 | h1) | h1) | h1) | h1) | h1 <;>
      (subst h1; simp [Char.isDigit] at h)

theorem digit_ne_of (c d : Char) (h : c.isDigit = true) (hd : d.isDigit = false) :
    c ≠ d := by
  intro hcon
  subst hcon
  rw [h] at hd
  exact Bool.noConfusion hd

theorem takeWhile_all (p : Char → Bool) (l : List Char)
    (h : ∀ c ∈ l, p c = true) : l.takeWhile p = l ∧ l.dropWhile p = [] := by
  induction l with
  | nil => exact ⟨rfl, rfl⟩
  | cons x xs ih =>
    have hx : p x = true := h x (by simp)
    rcases ih (fun c hc => h c (List.mem_cons_of_mem _ hc)) with ⟨h1, h2⟩
    constructor
    · simp [List.takeWhile_cons, hx, h1]
    · simp [List.dropWhile_cons, hx, h2]

/-- C2 (amended): a decimal token is converted exactly to its rational
value whenever that value's reduced denominator is at most 16 — not merely
when it is a multiple of 1/16 (so `"0.3"` stays `3/10`); a value with a
larger denominator is replaced through `limit_denominator(16)` by a
fraction with denominator at most 16, e.g. `"0.55"` becomes `6/11`. -/
theorem claim_decimal_conversion (ip fp : List Char)
    (hip : ∀ c ∈ ip, c.isDigit = true) (hfp : ∀ c ∈ fp, c.isDigit = true)
    (hipne : ip ≠ []) (hfpne : fp ≠ [])
    (hden : ((digits_val (ip ++ fp) : ℚ) / (10 : ℚ) ^ fp.length).den ≤ 16) :
    parse_quantity (String.mk (ip ++ '.' :: fp)) =
      some ((digits_val (ip ++ fp) : ℚ) / (10 : ℚ) ^ fp.length) ∧
    parse_quantity "0.55" = some ((6 : ℚ)/11) ∧ ((6 : ℚ)/11).den ≤ 16 := by
  refine ⟨?_, by decide, by decide⟩
  have hall_nosp : ∀ c ∈ ip ++ '.' :: fp, is_space_char c = false := by
    intro c hc
    rcases List.mem_append.mp hc with h | h
    · exact digit_not_space (hip c h)
    · rcases List.mem_cons.mp h with heq | h
      · subst heq; decide
      · exact digit_not_space (hfp c h)
  have hstrip : strip_by is_space_char (ip ++ '.' :: fp) = ip ++ '.' :: fp :=
    strip_by_id _ _ hall_nosp
  have hsp : (' ' : Char) ∉ ip ++ '.' :: fp := by
    intro hmem
    rcases List.mem_append.mp hmem with h | h
    · exact absurd (hip _ h) (by decide)
    · rcases List.mem_cons.mp h with heq | h
      · exact absurd heq (by decide)
      · exact absurd (hfp _ h) (by decide)
  have hsl : ('/' : Char) ∉ ip ++ '.' :: fp := by
    intro hmem
    rcases List.mem_append.mp hmem with h | h
    · exact absurd (hip _ h) (by decide)
    · rcases List.mem_cons.mp h with heq | h
      · exact absurd heq (by decide)
      · exact absurd (hfp _ h) (by decide)
  have hcont1 : (ip ++ '.' :: fp).contains ' ' = false := contains_eq_false hsp
  have hcont2 : (ip ++ '.' :: fp).contains '/' = false := contains_eq_false hsl
  have hcsne : ip ++ '.' :: fp ≠ [] := by
    rcases ip with _ | ⟨c0, ipt⟩
    · exact absurd rfl hipne
    · simp
  rcases hip0 : ip with _ | ⟨c0, ipt⟩
  · exact absurd hip0 hipne
  rw [← hip0]
  have hhead : (ip ++ '.' :: fp).head? = some c0 := by rw [hip0]; rfl
  have hc0d : c0.isDigit = true := hip c0 (by rw [hip0]; simp)
  have hplus : ¬ (ip ++ '.' :: fp).head? = some '+' := by
    rw [hhead]
    intro hcon
    injection hcon with hcon
    exact digit_ne_of c0 '+' hc0d (by decide) hcon
  have hminus : ¬ (ip ++ '.' :: fp).head? = some '-' := by
    rw [hhead]
    intro hcon
    injection hcon with hcon
    exact digit_ne_of c0 '-' hc0d (by decide) hcon
  have hspan1 : (ip ++ '.' :: fp).span Char.isDigit = (ip, '.' :: fp) := by
    rw [List.span_eq_take_drop]
    rcases takeWhile_append_stop Char.isDigit ip '.' fp hip (by decide) with ⟨h1, h2⟩
    rw [h1, h2]
  have hspan2 : fp.span Char.isDigit = (fp, []) := by
    rw [List.span_eq_take_drop]
    rcases takeWhile_all Char.isDigit fp hfp with ⟨h1, h2⟩
    rw [h1, h2]
  have hipem : ip.isEmpty = false := by rw [hip0]; rfl
  have hdec : py_decimal (String.mk (ip ++ '.' :: fp)) =
      some ((digits_val (ip ++ fp) : ℚ) / (10 : ℚ) ^ fp.length) := by
    simp only [py_decimal, hstrip, hplus, hminus, if_false, hspan1, List.head?_cons,
      List.tail_cons, hspan2, hipem]
    simp [one_mul]
  rw [parse_quantity]
  simp only [hstrip]
  rw [pq_go]
  rw [if_neg hcsne]
  rw [if_neg (show ¬ ((ip ++ '.' :: fp).contains ' ' &&
        (ip ++ '.' :: fp).contains '/') = true by rw [hcont1]; simp)]
  rw [if_neg (show ¬ (ip ++ '.' :: fp).contains '/' = true by rw [hcont2]; simp)]
  rw [hdec]
  simp only [limit_denominator, if_pos hden]

/-- Witness for C2's amended rule at `"0.3"` (= the characters
`'0' '.' '3'`): the value `3/10` has denominator `10 ≤ 16` and converts
exactly. -/
theorem claim_decimal_conversion_witness :
    parse_quantity (String.mk (['0'] ++ '.' :: ['3'])) =
      some ((digits_val (['0'] ++ ['3']) : ℚ) / (10 : ℚ) ^ (['3'] : List Char).length) ∧
    parse_quantity "0.55" = some ((6 : ℚ)/11) ∧ ((6 : ℚ)/11).den ≤ 16 :=
  claim_decimal_conversion ['0'] ['3'] (by decide) (by decide) (by decide) (by decide)
    (by decide)

/-! ## Splitting and joining lines (for the line-number analysis) -/

theorem go_cons_other (c : Char) (rest : List Char) (acc : List Char)
    (h1 : c ≠ '\r') (h2 : c ≠ '\n') :
    py_splitlines_go (c :: rest) acc = py_splitlines_go rest (c :: acc) := by
  rcases rest with _ | ⟨c2, r2⟩
  · simp [py_splitlines_go, h1, h2]
  · simp [py_splitlines_go, h1, h2]

theorem go_cons_nl (rest : List Char) (acc : List Char) :
    py_splitlines_go ('\n' :: rest) acc =
      acc.reverse :: (if rest.isEmpty then [] else py_splitlines_go rest []) := by
  rcases rest with _ | ⟨c2, r2⟩
  · simp [py_splitlines_go]
  · simp [py_splitlines_go]

theorem go_no_nl (cs : List Char) :
    ∀ acc, (∀ c ∈ cs, c ≠ '\n' ∧ c ≠ '\r') →
      py_splitlines_go cs acc = [acc.reverse ++ cs] := by
  induction cs with
  | nil => intro acc _; simp [py_splitlines_go]
  | cons c rest ih =>
    intro acc h
    rcases h c (by simp) with ⟨h1, h2⟩
    rw [go_cons_other c rest acc h2 h1]
    rw [ih (c :: acc) (fun d hd => h d (List.mem_cons_of_mem _ hd))]
    simp

theorem go_sep (xs : List Char) :
    ∀ acc tail, (∀ c ∈ xs, c ≠ '\n' ∧ c ≠ '\r') →
      py_splitlines_go (xs ++ '\n' :: tail) acc =
        (acc.reverse ++ xs) ::
          (if tail.isEmpty then [] else py_splitlines_go tail []) := by
  induction xs with
  | nil => intro acc tail _; simp [go_cons_nl]
  | cons c rest ih =>
    intro acc tail h
    rcases h c (by simp) with ⟨h1, h2⟩
    rw [List.cons_append, go_cons_other c _ acc h2 h1]
    rw [ih (c :: acc) tail (fun d hd => h d (List.mem_cons_of_mem _ hd))]
    simp

theorem string_ne_empty_iff_data (s : String) : s ≠ "" ↔ s.data ≠ [] := by
  constructor
  · intro h hcon
    exact h (string_eq_of_data hcon)
  · intro h hcon
    rw [hcon] at h
    exact h rfl

theorem join_lines_data_ne_nil (ls : List String) (hne : ls ≠ [])
    (hlast : ls.getLast? ≠ some "") : (join_lines ls).data ≠ [] := by
  rcases ls with _ | ⟨l, ls'⟩
  · exact absurd rfl hne
  · rcases ls' with _ | ⟨l2, ls''⟩
    · have : l ≠ "" := by
        intro hcon
        exact hlast (by rw [hcon]; rfl)
      simpa [join_lines, join_chars] using (string_ne_empty_iff_data l).mp this
    · simp [join_lines, join_chars]

theorem splitlines_join (ls : List String) (hne : ls ≠ [])
    (hnl : ∀ l ∈ ls, ∀ c ∈ String.data l, c ≠ '\n' ∧ c ≠ '\r')
    (hlast : ls.getLast? ≠ some "") :
    py_splitlines (join_lines ls) = ls := by
  induction ls with
  | nil => exact absurd rfl hne
  | cons l ls' ih =>
    rcases ls' with _ | ⟨l2, ls''⟩
    · have hl : l ≠ "" := by
        intro hcon
        exact hlast (by rw [hcon]; rfl)
      have hdne : l.data ≠ [] := (string_ne_empty_iff_data l).mp hl
      rw [py_splitlines]
      rw [if_neg (by simpa [join_lines, join_chars] using hdne)]
      have : (join_lines [l]).data = l.data := rfl
      rw [this, go_no_nl l.data [] (hnl l (by simp))]
      simp
    · have hdata : (join_lines (l :: l2 :: ls'')).data =
          l.data ++ '\n' :: (join_lines (l2 :: ls'')).data := by
        simp [join_lines, join_chars]
      have htailne : (join_lines (l2 :: ls'')).data ≠ [] :=
        join_lines_data_ne_nil (l2 :: ls'') (by simp)
          (by
            intro hcon
            exact hlast (by simpa using hcon))
      rw [py_splitlines, if_neg (by simp [hdata]), hdata]
      rw [go_sep l.data [] (join_lines (l2 :: ls'')).data (hnl l (by simp))]
      rw [if_neg (by simpa [List.isEmpty_iff] using htailne)]
      have hrest : py_splitlines (join_lines (l2 :: ls'')) = l2 :: ls'' := by
        refine ih (by simp) ?_ ?_
        · intro x hx
          exact hnl x (List.mem_cons_of_mem _ hx)
        · intro hcon
          exact hlast (by simpa using hcon)
      rw [py_splitlines, if_neg (by simpa [List.isEmpty_iff] using htailne)] at hrest
      simp only [List.map_cons, List.reverse_nil, List.nil_append]
      rw [hrest]

/-! ## Locating the Ingredients section -/

theorem extract_go_skip (pre : String) (ls rest : List String)
    (h : ∀ l ∈ ls, py_startswith l pre = false) :
    extract_sections_go pre (ls ++ rest) none [] =
      extract_sections_go pre rest none [] := by
  induction ls with
  | nil => simp
  | cons l t ih =>
    have hl : py_startswith l pre = false := h l (by simp)
    rw [List.cons_append, extract_sections_go]
    simp only [hl, Bool.false_eq_true, if_false]
    exact ih (fun x hx => h x (List.mem_cons_of_mem _ hx))

theorem extract_go_collect (pre : String) (ls : List String) :
    ∀ acc name, (∀ l ∈ ls, py_startswith l pre = false) →
      extract_sections_go pre ls (some name) [(name, acc)] = [(name, acc ++ ls)] := by
  induction ls with
  | nil => intro acc name _; simp [extract_sections_go]
  | cons l t ih =>
    intro acc name h
    have hl : py_startswith l pre = false := h l (by simp)
    rw [extract_sections_go]
    simp only [hl, Bool.false_eq_true, if_false]
    have happ : sections_append [(name, acc)] name l = [(name, acc ++ [l])] := by
      simp [sections_append]
    rw [happ, ih (acc ++ [l]) name (fun x hx => h x (List.mem_cons_of_mem _ hx))]
    simp

theorem strip_by_cons_of_pos (p : Char → Bool) (c : Char) (cs : List Char)
    (h : p c = true) : strip_by p (c :: cs) = strip_by p cs := by
  rw [strip_by, strip_by, List.dropWhile_cons_of_pos h]

/-- Leading blank spacer lines disappear when the collected section text is
stripped. -/
theorem strip_join_blanks (bs : ℕ) (content : List String) (hconne : content ≠ [])
    (hstrip : py_strip (join_lines content) = join_lines content) :
    py_strip (join_lines (List.replicate bs "" ++ content)) = join_lines content := by
  induction bs with
  | zero => simpa using hstrip
  | succ n ih =>
    have hne : List.replicate n "" ++ content ≠ [] := by
      rcases content with _ | _
      · exact absurd rfl hconne
      · simp
    have hdata : (join_lines (List.replicate (n + 1) "" ++ content)).data =
        '\n' :: (join_lines (List.replicate n "" ++ content)).data := by
      rcases hsh : List.replicate n "" ++ content with _ | ⟨x, xs⟩
      · exact absurd hsh hne
      · simp [join_lines, List.replicate_succ, join_chars, hsh]
    rw [py_strip, hdata, strip_by_cons_of_pos _ _ _ (by decide)]
    rw [py_strip] at ih
    exact ih

/-- C10: line numbers are relative to the extracted, stripped Ingredients
section.  For any document whose body (after frontmatter splitting) is a
prelude without level-2 headings, the `## Ingredients` heading, `bs` blank
spacer lines and the section's entries, the item/error line numbering
enumerates the entries from 1 — while the entry reported as line `i + 1`
physically sits at body line `|prelude| + 1 + bs + i + 1`, which is never
equal to `i + 1` (and sits even later in the document when frontmatter was
stripped in front). -/
theorem claim_line_numbers_relative (md src : String) (pre_lines : List String)
    (bs : ℕ) (content : List String)
    (hbody : split_frontmatter_body md =
      join_lines (pre_lines ++ "## Ingredients" :: (List.replicate bs "" ++ content)))
    (hpre : ∀ l ∈ pre_lines, py_startswith l "## " = false)
    (hcon : ∀ l ∈ content, py_startswith l "## " = false)
    (hnl : ∀ l ∈ pre_lines ++ content, ∀ c ∈ String.data l, c ≠ '\n' ∧ c ≠ '\r')
    (hconne : content ≠ [])
    (hlast : content.getLast? ≠ some "")
    (hstrip : py_strip (join_lines content) = join_lines content) :
    extract_ingredient_items md src = extract_loop src 1 content ∧
    ∀ i, i < content.length →
      (pre_lines ++ "## Ingredients" :: (List.replicate bs "" ++ content)).get?
          (pre_lines.length + 1 + bs + i) = content.get? i ∧
      pre_lines.length + 1 + bs + i + 1 ≠ i + 1 := by
  have hnlb : ∀ l ∈ pre_lines ++ "## Ingredients" :: (List.replicate bs "" ++ content),
      ∀ c ∈ String.data l, c ≠ '\n' ∧ c ≠ '\r' := by
    intro l hl
    rcases List.mem_append.mp hl with h | h
    · exact hnl l (List.mem_append.mpr (Or.inl h))
    · rcases List.mem_cons.mp h with rfl | h
      · intro c hc
        fin_cases hc <;> exact ⟨by decide, by decide⟩
      · rcases List.mem_append.mp h with h | h
        · have : l = "" := (List.eq_of_mem_replicate h)
          subst this
          intro c hc
          simp at hc
        · exact hnl l (List.mem_append.mpr (Or.inr h))
  have hx : content.getLast? = some (content.getLast hconne) :=
    List.getLast?_eq_getLast content hconne
  have hxne : content.getLast hconne ≠ "" := by
    intro hcon
    exact hlast (by rw [hx, hcon])
  have hlastb : (pre_lines ++ "## Ingredients" :: (List.replicate bs "" ++ content)).getLast?
      ≠ some "" := by
    have hbc : (List.replicate bs "" ++ content).getLast? =
        some (content.getLast hconne) := by
      rw [List.getLast?_append, hx]
      rfl
    have h2 : ("## Ingredients" :: (List.replicate bs "" ++ content)).getLast? =
        some (content.getLast hconne) := by
      show ((["## Ingredients"] : List String) ++
        (List.replicate bs "" ++ content)).getLast? = _
      rw [List.getLast?_append, hbc]
      rfl
    rw [List.getLast?_append, h2]
    intro hcon
    have : some (content.getLast hconne) = some "" := hcon
    injection this with this
    exact hxne this
  have hpre2 : String.mk (List.replicate 2 '#') ++ " " = "## " := by decide
  have hsec : extract_sections (split_frontmatter_body md) 2 =
      [("Ingredients", join_lines content)] := by
    rw [extract_sections, hpre2, hbody]
    rw [splitlines_join _ (by simp) hnlb hlastb]
    rw [extract_go_skip "## " pre_lines _ hpre]
    rw [extract_sections_go]
    rw [if_pos (show py_startswith "## Ingredients" "## " = true by decide)]
    rw [show py_strip (("## Ingredients" : String).drop ("## " : String).length) =
      "Ingredients" by decide]
    show List.map _ (extract_sections_go "## " (List.replicate bs "" ++ content)
      (some "Ingredients") (sections_set [] "Ingredients")) = _
    rw [show sections_set [] "Ingredients" = [("Ingredients", [])] from rfl]
    rw [extract_go_collect "## " (List.replicate bs "" ++ content) [] "Ingredients" ?hno]
    case hno =>
      intro l hl
      rcases List.mem_append.mp hl with h | h
      · have : l = "" := List.eq_of_mem_replicate h
        subst this
        decide
      · exact hcon l h
    simp only [List.map_cons, List.map_nil, List.nil_append]
    rw [strip_join_blanks bs content hconne hstrip]
  have hget : sections_get [("Ingredients", join_lines content)] "Ingredients" "" =
      join_lines content := by
    simp [sections_get]
  constructor
  · rw [extract_ingredient_items]
    rw [hsec, hget]
    rw [splitlines_join content hconne
      (fun l hl => hnl l (List.mem_append.mpr (Or.inr hl))) hlast]
  · intro i hi
    constructor
    · have h1 : (pre_lines ++ "## Ingredients" ::
          (List.replicate bs "" ++ content)).get? (pre_lines.length + 1 + bs + i) =
          ("## Ingredients" :: (List.replicate bs "" ++ content)).get? (1 + bs + i) := by
        rw [List.get?_append_right (by omega)]
        congr 1
        omega
      have h2 : ("## Ingredients" :: (List.replicate bs "" ++ content)).get? (1 + bs + i) =
          (List.replicate bs "" ++ content).get? (bs + i) := by
        have he : 1 + bs + i = (bs + i) + 1 := by omega
        rw [he]
        rfl
      have h3 : (List.replicate bs "" ++ content).get? (bs + i) = content.get? i := by
        rw [List.get?_append_right (by simp)]
        congr 1
        simp
      rw [h1, h2, h3]
    · omega

/-- Witness for C10 at a document with frontmatter, a title line, the
heading and one blank spacer: the single entry `bad` is reported as line 1
while sitting at body line 4 (document line 7 counting the frontmatter). -/
theorem claim_line_numbers_relative_witness :
    (extract_ingredient_items "---\na: 1\n---\n# T\n## Ingredients\n\nbad" "r.md" =
      extract_loop "r.md" 1 ["bad"]) ∧
    ((["# T"] ++ "## Ingredients" :: (List.replicate 1 "" ++ ["bad"])).get?
        ((["# T"] : List String).length + 1 + 1 + 0) = (["bad"] : List String).get? 0 ∧
      (["# T"] : List String).length + 1 + 1 + 0 + 1 ≠ 0 + 1) :=
  ⟨(claim_line_numbers_relative "---\na: 1\n---\n# T\n## Ingredients\n\nbad" "r.md"
      ["# T"] 1 ["bad"] (by decide) (by decide) (by decide) (by decide) (by decide)
      (by decide) (by decide)).1,
   (claim_line_numbers_relative "---\na: 1\n---\n# T\n## Ingredients\n\nbad" "r.md"
      ["# T"] 1 ["bad"] (by decide) (by decide) (by decide) (by decide) (by decide)
      (by decide) (by decide)).2 0 (by decide)⟩

end Vaultchef
